import Mathlib

/-!
Verification development for the `ctx` plugin orchestrator.

The Go program under study discovers `ctx-*` executables on `PATH`, builds a
child-process environment, runs the plugins under a bounded-concurrency gate,
validates their JSON envelopes, aggregates them by plugin name and serializes
the aggregate to YAML, JSON or XML.  The definitions below are a shallow
embedding of the corresponding Go functions (`findPlugins`, `getSessionID`,
`getCurrentShlvl`, `getPluginEnv`, `executePlugins`, `formatOutput`) in
`cmd/ctx/main.go`.  Operating-system effects are passed in explicitly: the
inherited environment is an ordered list of key/value pairs, `filepath.Abs`
and `os.ReadDir` are function parameters, and clock reads are explicit
integer arguments.
-/

namespace Ctx

/-- Environments are ordered `KEY=VALUE` lists, modelled as key/value pairs
(`os.Environ` entries are split on the first `=`). -/
abbrev Env := List (String × String)

/-- Model of `os.Getenv`: the value of the first entry with the given key,
or `""` when the key is absent (Go's `Getenv` cannot distinguish the two). -/
def getenv (env : Env) (k : String) : String :=
  ((env.find? (fun p => p.1 = k)).map Prod.snd).getD ""

/-- Model of `os.LookupEnv`: the value of the first entry with the given key,
or `none` when absent. -/
def lookupEnv (env : Env) (k : String) : Option String :=
  (env.find? (fun p => p.1 = k)).map Prod.snd

/-- First value bound to a key in a produced environment list. -/
def lookupVar (l : List (String × String)) (k : String) : Option String :=
  (l.find? (fun p => p.1 = k)).map Prod.snd

/-- Decimal digit character for a value below ten. -/
def digitChar (d : Nat) : Char := Char.ofNat (48 + d)

/-- Numeric value of a decimal digit character. -/
def digitVal (c : Char) : Nat := c.toNat - 48

/-- Whether a character is a decimal digit. -/
def isDigitChar (c : Char) : Bool := 48 ≤ c.toNat && c.toNat ≤ 57

/-- Decimal digits of a natural number, most significant first.  The first
argument is recursion fuel; any fuel at least the number itself gives the
true digit list. -/
def natDigits : Nat → Nat → List Nat
  | 0, n => [n % 10]
  | fuel + 1, n => if n < 10 then [n] else natDigits fuel (n / 10) ++ [n % 10]

/-- Decimal rendering of a natural number. -/
def printNat (n : Nat) : List Char := (natDigits n n).map digitChar

/-- Model of Go's `strconv.Itoa` (and of the `%d` verb of `fmt.Sprintf`). -/
def goItoa (i : Int) : String :=
  (if i < 0 then '-' :: printNat (-i).toNat else printNat i.toNat).asString

/-- Value of an unsigned digit string. -/
def foldDigits (ds : List Char) : Nat :=
  ds.foldl (fun a c => a * 10 + digitVal c) 0

/-- Model of Go's `strconv.Atoi`: an optional sign followed by at least one
decimal digit and nothing else, with the result required to fit in `int64`
(Go reports `ErrRange` otherwise, which the caller treats as an error). -/
def goAtoi (s : String) : Option Int :=
  match s.data with
  | [] => none
  | c :: rest =>
    let signDigits : Bool × List Char :=
      if c = '-' then (true, rest)
      else if c = '+' then (false, rest)
      else (false, c :: rest)
    let digs := signDigits.2
    if digs.isEmpty then none
    else if digs.all isDigitChar then
      let v : Int := if signDigits.1 then -(foldDigits digs : Int) else (foldDigits digs : Int)
      if v < -(9223372036854775808 : Int) ∨ (9223372036854775808 : Int) ≤ v then none
      else some v
    else none

/-- Model of `filepath.Join` for the two-component calls the program makes
(both arguments are nonempty there, so `Clean` is a no-op on the shape). -/
def joinPath (a b : String) : String := a ++ "/" ++ b

/-- The key of the session identifier (`ctxSessionEnvKey` in the source). -/
def ctxSessionEnvKey : String := "CTX_SESSION"

/-- The key of the nesting counter (`ctxShlvlEnvKey` in the source). -/
def ctxShlvlEnvKey : String := "CTX_SHLVL"

/-- The key of the show-source flag (`ctxShowSourceEnvKey` in the source). -/
def ctxShowSourceEnvKey : String := "CTX_SHOW_SOURCE"

/-- The ambient tracing keys the orchestrator propagates
(`ambientEnvKeysToPropagate` in the source). -/
def ambientEnvKeysToPropagate : List String := ["TRACEPARENT", "TRACESTATE"]

/-- The flag configuration of a run (struct `config` in the source).
`pluginTimeout` is a Go `time.Duration`, i.e. a count of nanoseconds. -/
structure config where
  outputFormat : String := "yaml"
  cacheDir : String := ""
  outputTokenBudget : Int := 0
  thinkingTokenBudget : Int := 0
  costBudgetCents : Int := 0
  allowedTools : String := ""
  pluginTimeout : Int := 0
  pluginRetries : Int := 0
  indent : Int := 2
  summary : Bool := false
  maxParallelPlugins : Nat := 1
  printSource : Bool := false

/-- Model of `getSessionID`: propagate a nonempty inherited `CTX_SESSION`,
otherwise mint `ctx_<unix-seconds>` from the clock. -/
def getSessionID (env : Env) (nowUnix : Int) : String :=
  let sessionID := getenv env ctxSessionEnvKey
  if sessionID ≠ "" then sessionID else "ctx_" ++ goItoa nowUnix

/-- Model of `getCurrentShlvl`: read `CTX_SHLVL`, falling back to `SHLVL`
when that is empty; a string that does not parse as a nonnegative `int`
yields zero. -/
def getCurrentShlvl (env : Env) : Int :=
  let levelStr := getenv env ctxShlvlEnvKey
  let levelStr := if levelStr = "" then getenv env "SHLVL" else levelStr
  match goAtoi levelStr with
  | none => 0
  | some l => if l < 0 then 0 else l

/-- Model of `os.UserHomeDir`: the value of `HOME`, failing when it is
absent or empty. -/
def userHomeDir (env : Env) : Option String :=
  let h := getenv env "HOME"
  if h = "" then none else some h

/-- The cache directory `getPluginEnv` resolves (its local `cacheDirToSet`):
the absolutized `--cache-dir` value if that flag is set, otherwise
`$XDG_CACHE_HOME/ctx` or `$HOME/.cache/ctx`; empty when nothing resolves.
`absf` models `filepath.Abs`. -/
def cacheDirToSet (cfg : config) (env : Env) (absf : String → Option String) : String :=
  if cfg.cacheDir ≠ "" then
    match absf cfg.cacheDir with
    | some a => a
    | none => ""
  else
    let xdg := getenv env "XDG_CACHE_HOME"
    let xdg :=
      if xdg = "" then
        match userHomeDir env with
        | some h => joinPath h ".cache"
        | none => ""
      else xdg
    if xdg ≠ "" then joinPath xdg "ctx" else ""

/-- Number of whole seconds of the configured plugin timeout
(`int(cfg.pluginTimeout.Seconds())` in the source; exact for every duration
whose second count is far from 2^53). -/
def timeoutSeconds (cfg : config) : Int := cfg.pluginTimeout / 1000000000

/-- Unix seconds of an instant given in nanoseconds since the epoch
(`time.Time.Unix` floors). -/
def goUnix (ns : Int) : Int := ns / 1000000000

/-- The variables `getPluginEnv` sets explicitly (its `varsToSet` map), in
source order.  `now` is the clock read in nanoseconds used for the deadline
computation. -/
def varsToSet (cfg : config) (sessionID : String) (ambient : List String)
    (env : Env) (absf : String → Option String) (now : Int) : List (String × String) :=
  [(ctxSessionEnvKey, sessionID),
   (ctxShlvlEnvKey, goItoa (getCurrentShlvl env + 1))]
  ++ ambient.filterMap (fun k => (lookupEnv env k).map (fun v => (k, v)))
  ++ (let cd := cacheDirToSet cfg env absf
      if cd ≠ "" then [("CTX_CACHE_DIR", cd)] else [])
  ++ (if 0 < cfg.outputTokenBudget then
        [("CTX_OUTPUT_TOKEN_BUDGET", goItoa cfg.outputTokenBudget)] else [])
  ++ (if 0 < cfg.thinkingTokenBudget then
        [("CTX_THINKING_TOKEN_BUDGET", goItoa cfg.thinkingTokenBudget)] else [])
  ++ (if 0 < cfg.costBudgetCents then
        [("CTX_COST_BUDGET_CENTS", goItoa cfg.costBudgetCents)] else [])
  ++ (if cfg.allowedTools ≠ "" then [("CTX_ALLOWED_TOOLS", cfg.allowedTools)] else [])
  ++ (if 0 < cfg.pluginTimeout ∧ 0 < timeoutSeconds cfg then
        [("CTX_TIMEOUT_SECONDS", goItoa (timeoutSeconds cfg)),
         ("CTX_DEADLINE_TIMESTAMP", goItoa (goUnix (now + cfg.pluginTimeout)))] else [])
  ++ (if 0 < cfg.pluginRetries then [("CTX_RETRY_MAX", goItoa cfg.pluginRetries)] else [])
  ++ (if cfg.printSource then [(ctxShowSourceEnvKey, "true")] else [])

/-- The keys `getPluginEnv` registers as managed (its `managedKeys` set), in
source order.  The session, nesting and ambient keys are managed
unconditionally; every other key is registered only inside the conditional
that also sets it. -/
def managedKeys (cfg : config) (ambient : List String) (env : Env)
    (absf : String → Option String) : List String :=
  [ctxSessionEnvKey, ctxShlvlEnvKey, "SHLVL"]
  ++ ambient
  ++ (if cacheDirToSet cfg env absf ≠ "" then ["CTX_CACHE_DIR"] else [])
  ++ (if 0 < cfg.outputTokenBudget then ["CTX_OUTPUT_TOKEN_BUDGET"] else [])
  ++ (if 0 < cfg.thinkingTokenBudget then ["CTX_THINKING_TOKEN_BUDGET"] else [])
  ++ (if 0 < cfg.costBudgetCents then ["CTX_COST_BUDGET_CENTS"] else [])
  ++ (if cfg.allowedTools ≠ "" then ["CTX_ALLOWED_TOOLS"] else [])
  ++ (if 0 < cfg.pluginTimeout ∧ 0 < timeoutSeconds cfg then
        ["CTX_TIMEOUT_SECONDS", "CTX_DEADLINE_TIMESTAMP"] else [])
  ++ (if 0 < cfg.pluginRetries then ["CTX_RETRY_MAX"] else [])
  ++ (if cfg.printSource then [ctxShowSourceEnvKey] else [])

/-- The part of the orchestrator's own environment `getPluginEnv` passes
through: every entry whose key is not managed. -/
def inheritedEnv (cfg : config) (ambient : List String) (env : Env)
    (absf : String → Option String) : Env :=
  env.filter (fun p => ¬ (managedKeys cfg ambient env absf).contains p.1)

/-- Model of `getPluginEnv`: the non-managed inherited entries followed by
the explicitly set variables. -/
def getPluginEnv (cfg : config) (sessionID : String) (ambient : List String)
    (env : Env) (absf : String → Option String) (now : Int) : List (String × String) :=
  inheritedEnv cfg ambient env absf ++ varsToSet cfg sessionID ambient env absf now

/-- Opening-brace character, written numerically. -/
def lbrace : Char := Char.ofNat 123

/-- Closing-brace character, written numerically. -/
def rbrace : Char := Char.ofNat 125

/-- Double-quote character. -/
def quoteC : Char := Char.ofNat 34

/-- Backslash character. -/
def backslashC : Char := Char.ofNat 92

/-- JSON value trees (the `interface{}` trees Go's `encoding/json` produces),
modelled as a tagged tree per the `data` contract.  Two modelling choices:
numbers are integers (Go stores `float64`, whose shortest-round-trip decimal
re-serialization is exact, so integral values represent the general behaviour
without floating-point formatting), and objects are ordered field lists (a Go
`map[string]any` corresponds to the tree whose keys are strictly sorted,
because Go marshals map keys in sorted order — see `canonicalb`). -/
inductive Json where
  | null
  | bool (b : Bool)
  | num (i : Int)
  | str (s : List Char)
  | arr (elems : List Json)
  | obj (fields : List (List Char × Json))

/-- Structural induction for `Json` with elementwise hypotheses for the
nested lists. -/
theorem Json.myInd (P : Json → Prop)
    (hnull : P .null) (hbool : ∀ b, P (.bool b)) (hnum : ∀ i, P (.num i))
    (hstr : ∀ s, P (.str s))
    (harr : ∀ xs, (∀ x ∈ xs, P x) → P (.arr xs))
    (hobj : ∀ fs, (∀ p ∈ fs, P p.2) → P (.obj fs)) : ∀ v, P v :=
  Json.rec (motive_1 := P) (motive_2 := fun xs => ∀ x ∈ xs, P x)
    (motive_3 := fun fs => ∀ p ∈ fs, P p.2) (motive_4 := fun p => P p.2)
    hnull hbool hnum hstr harr hobj
    (by simp)
    (fun x xs ihx ihxs => by
      intro y hy
      rcases List.mem_cons.mp hy with h | h
      · exact h ▸ ihx
      · exact ihxs y h)
    (by simp)
    (fun p ps ihp ihps => by
      intro q hq
      rcases List.mem_cons.mp hq with h | h
      · exact h ▸ ihp
      · exact ihps q h)
    (fun k v ihv => ihv)

mutual

/-- Decidable equality on JSON trees. -/
def jdecEq : (a b : Json) → Decidable (a = b)
  | .null, .null => isTrue rfl
  | .null, .bool _ => isFalse (fun h => Json.noConfusion h)
  | .null, .num _ => isFalse (fun h => Json.noConfusion h)
  | .null, .str _ => isFalse (fun h => Json.noConfusion h)
  | .null, .arr _ => isFalse (fun h => Json.noConfusion h)
  | .null, .obj _ => isFalse (fun h => Json.noConfusion h)
  | .bool _, .null => isFalse (fun h => Json.noConfusion h)
  | .bool a, .bool b =>
    match decEq a b with
    | isTrue h => isTrue (by rw [h])
    | isFalse h => isFalse (fun hh => h (by injection hh))
  | .bool _, .num _ => isFalse (fun h => Json.noConfusion h)
  | .bool _, .str _ => isFalse (fun h => Json.noConfusion h)
  | .bool _, .arr _ => isFalse (fun h => Json.noConfusion h)
  | .bool _, .obj _ => isFalse (fun h => Json.noConfusion h)
  | .num _, .null => isFalse (fun h => Json.noConfusion h)
  | .num _, .bool _ => isFalse (fun h => Json.noConfusion h)
  | .num a, .num b =>
    match decEq a b with
    | isTrue h => isTrue (by rw [h])
    | isFalse h => isFalse (fun hh => h (by injection hh))
  | .num _, .str _ => isFalse (fun h => Json.noConfusion h)
  | .num _, .arr _ => isFalse (fun h => Json.noConfusion h)
  | .num _, .obj _ => isFalse (fun h => Json.noConfusion h)
  | .str _, .null => isFalse (fun h => Json.noConfusion h)
  | .str _, .bool _ => isFalse (fun h => Json.noConfusion h)
  | .str _, .num _ => isFalse (fun h => Json.noConfusion h)
  | .str a, .str b =>
    match decEq a b with
    | isTrue h => isTrue (by rw [h])
    | isFalse h => isFalse (fun hh => h (by injection hh))
  | .str _, .arr _ => isFalse (fun h => Json.noConfusion h)
  | .str _, .obj _ => isFalse (fun h => Json.noConfusion h)
  | .arr _, .null => isFalse (fun h => Json.noConfusion h)
  | .arr _, .bool _ => isFalse (fun h => Json.noConfusion h)
  | .arr _, .num _ => isFalse (fun h => Json.noConfusion h)
  | .arr _, .str _ => isFalse (fun h => Json.noConfusion h)
  | .arr a, .arr b =>
    match jdecEqElems a b with
    | isTrue h => isTrue (by rw [h])
    | isFalse h => isFalse (fun hh => h (by injection hh))
  | .arr _, .obj _ => isFalse (fun h => Json.noConfusion h)
  | .obj _, .null => isFalse (fun h => Json.noConfusion h)
  | .obj _, .bool _ => isFalse (fun h => Json.noConfusion h)
  | .obj _, .num _ => isFalse (fun h => Json.noConfusion h)
  | .obj _, .str _ => isFalse (fun h => Json.noConfusion h)
  | .obj _, .arr _ => isFalse (fun h => Json.noConfusion h)
  | .obj a, .obj b =>
    match jdecEqMembers a b with
    | isTrue h => isTrue (by rw [h])
    | isFalse h => isFalse (fun hh => h (by injection hh))

/-- Decidable equality on element lists. -/
def jdecEqElems : (as bs : List Json) → Decidable (as = bs)
  | [], [] => isTrue rfl
  | [], _ :: _ => isFalse (fun h => List.noConfusion h)
  | _ :: _, [] => isFalse (fun h => List.noConfusion h)
  | a :: as, b :: bs =>
    match jdecEq a b with
    | isFalse h => isFalse (by intro hh; injection hh with h1 h2; exact h h1)
    | isTrue h1 =>
      match jdecEqElems as bs with
      | isTrue h2 => isTrue (by rw [h1, h2])
      | isFalse h2 => isFalse (by intro hh; injection hh with hh1 hh2; exact h2 hh2)

/-- Decidable equality on member lists. -/
def jdecEqMembers : (ms ns : List (List Char × Json)) → Decidable (ms = ns)
  | [], [] => isTrue rfl
  | [], _ :: _ => isFalse (fun h => List.noConfusion h)
  | _ :: _, [] => isFalse (fun h => List.noConfusion h)
  | (k, v) :: ms, (k2, v2) :: ns =>
    match decEq k k2 with
    | isFalse h =>
      isFalse (by intro hh; injection hh with hh1 hh2; exact h (congrArg Prod.fst hh1))
    | isTrue h1 =>
      match jdecEq v v2 with
      | isFalse h =>
        isFalse (by intro hh; injection hh with hh1 hh2; exact h (congrArg Prod.snd hh1))
      | isTrue h2 =>
        match jdecEqMembers ms ns with
        | isTrue h3 => isTrue (by rw [h1, h2, h3])
        | isFalse h3 => isFalse (by intro hh; injection hh with hh1 hh2; exact h3 hh2)

end

instance : DecidableEq Json := jdecEq

instance : Inhabited Json := ⟨Json.null⟩

/-- Lowercase hexadecimal digit (Go's encoder emits lowercase hex). -/
def hexDigit (n : Nat) : Char :=
  if n < 10 then Char.ofNat (48 + n) else Char.ofNat (87 + n)

/-- How `encoding/json` escapes one character inside a string literal:
quote, backslash and the common control characters get two-character
escapes, other control characters get `\u00xx`, and the HTML-unsafe
characters `<`, `>`, `&` and the line separators U+2028/U+2029 get `\u`
escapes as well. -/
def escChar (c : Char) : List Char :=
  if c = quoteC then [backslashC, quoteC]
  else if c = backslashC then [backslashC, backslashC]
  else if c = '\n' then [backslashC, 'n']
  else if c = '\r' then [backslashC, 'r']
  else if c = '\t' then [backslashC, 't']
  else if c.toNat < 32 then
    [backslashC, 'u', '0', '0', hexDigit (c.toNat / 16), hexDigit (c.toNat % 16)]
  else if c = '<' then [backslashC, 'u', '0', '0', '3', 'c']
  else if c = '>' then [backslashC, 'u', '0', '0', '3', 'e']
  else if c = '&' then [backslashC, 'u', '0', '0', '2', '6']
  else if c.toNat = 8232 then [backslashC, 'u', '2', '0', '2', '8']
  else if c.toNat = 8233 then [backslashC, 'u', '2', '0', '2', '9']
  else [c]

/-- JSON string-body escaping, character by character. -/
def escString : List Char → List Char
  | [] => []
  | c :: cs => escChar c ++ escString cs

/-- Decimal rendering of a JSON integer. -/
def serInt (i : Int) : List Char :=
  if i < 0 then '-' :: printNat (-i).toNat else printNat i.toNat

mutual

/-- Compact serialization of a JSON tree, as `json.Marshal` emits it
(no whitespace; strings escaped by `escChar`; field order preserved — a
canonical tree in the sense of `canonicalb` prints exactly as the
corresponding Go map does). -/
def serJson : Json → List Char
  | .null => "null".data
  | .bool true => "true".data
  | .bool false => "false".data
  | .num i => serInt i
  | .str s => quoteC :: (escString s ++ [quoteC])
  | .arr [] => ['[', ']']
  | .arr (x :: xs) => '[' :: (serJson x ++ serElemsTail xs ++ [']'])
  | .obj [] => [lbrace, rbrace]
  | .obj (m :: ms) => lbrace :: (serMember m ++ serMembersTail ms ++ [rbrace])

/-- The comma-prefixed serialization of the remaining array elements. -/
def serElemsTail : List Json → List Char
  | [] => []
  | x :: xs => ',' :: (serJson x ++ serElemsTail xs)

/-- Serialization of one object member: quoted key, colon, value. -/
def serMember (m : List Char × Json) : List Char :=
  quoteC :: (escString m.1 ++ (quoteC :: (':' :: serJson m.2)))

/-- The comma-prefixed serialization of the remaining object members. -/
def serMembersTail : List (List Char × Json) → List Char
  | [] => []
  | m :: ms => ',' :: (serMember m ++ serMembersTail ms)

end

/-- Strict lexicographic order on keys (byte order on code points, which on
valid scalars agrees with Go's byte-lexicographic string order). -/
def keyLt : List Char → List Char → Bool
  | _, [] => false
  | [], _ :: _ => true
  | a :: as, b :: bs => a.toNat < b.toNat || (a = b && keyLt as bs)

/-- Whether the keys of a field list are strictly increasing. -/
def sortedKeys : List (List Char × Json) → Bool
  | [] => true
  | [_] => true
  | m :: m2 :: ms => keyLt m.1 m2.1 && sortedKeys (m2 :: ms)

mutual

/-- Whether a tree is canonical: keys strictly sorted at every object node.
Canonical trees are exactly the images of Go `map[string]any` values, whose
keys Go marshals in sorted order. -/
def canonicalb : Json → Bool
  | .null => true
  | .bool _ => true
  | .num _ => true
  | .str _ => true
  | .arr xs => canonElems xs
  | .obj fs => sortedKeys fs && canonMembers fs

/-- All elements canonical. -/
def canonElems : List Json → Bool
  | [] => true
  | x :: xs => canonicalb x && canonElems xs

/-- All member values canonical. -/
def canonMembers : List (List Char × Json) → Bool
  | [] => true
  | m :: ms => canonicalb m.2 && canonMembers ms

end

mutual

/-- Parser fuel sufficient for a value (used in the round-trip proofs). -/
def jsize : Json → Nat
  | .null => 2
  | .bool _ => 2
  | .num _ => 2
  | .str s => s.length + 2
  | .arr xs => 3 + jsizeElems xs
  | .obj fs => 3 + jsizeMembers fs

/-- Fuel for the elements of an array. -/
def jsizeElems : List Json → Nat
  | [] => 0
  | x :: xs => jsize x + 1 + jsizeElems xs

/-- Fuel for the members of an object. -/
def jsizeMembers : List (List Char × Json) → Nat
  | [] => 0
  | m :: ms => m.1.length + jsize m.2 + 2 + jsizeMembers ms

end

/-- Whether a character is JSON whitespace (space, tab, newline, return). -/
def isWsChar (c : Char) : Bool :=
  c.toNat = 32 || c.toNat = 9 || c.toNat = 10 || c.toNat = 13

/-- Drop leading JSON whitespace. -/
def skipWs : List Char → List Char
  | [] => []
  | c :: rest => if isWsChar c then skipWs rest else c :: rest

/-- Split a maximal run of decimal digits off the front. -/
def takeDigits : List Char → List Char × List Char
  | [] => ([], [])
  | c :: rest =>
    if isDigitChar c then
      let p := takeDigits rest
      (c :: p.1, p.2)
    else ([], c :: rest)

/-- Parse the unsigned integer part of a JSON number (leading zeros are
invalid JSON except for `0` itself). -/
def parseNatNum (s : List Char) : Option (Nat × List Char) :=
  let p := takeDigits s
  match p.1 with
  | [] => none
  | d :: ds => if d = '0' ∧ ds ≠ [] then none else some (foldDigits (d :: ds), p.2)

/-- Parse a JSON integer with optional minus sign. -/
def parseNumber (s : List Char) : Option (Json × List Char) :=
  match s with
  | [] => none
  | c :: rest =>
    if c = '-' then
      match parseNatNum rest with
      | none => none
      | some (n, r) => some (Json.num (-(n : Int)), r)
    else
      match parseNatNum (c :: rest) with
      | none => none
      | some (n, r) => some (Json.num (n : Int), r)

/-- Value of one hexadecimal digit character, either case. -/
def hexVal (c : Char) : Option Nat :=
  if 48 ≤ c.toNat ∧ c.toNat ≤ 57 then some (c.toNat - 48)
  else if 97 ≤ c.toNat ∧ c.toNat ≤ 102 then some (c.toNat - 87)
  else if 65 ≤ c.toNat ∧ c.toNat ≤ 70 then some (c.toNat - 55)
  else none

/-- Parse a JSON string body after the opening quote: plain characters up
to the closing quote, backslash escapes, `\uXXXX` escapes restricted to
valid scalar values, and no raw control characters. -/
def parseStringBody : Nat → List Char → Option (List Char × List Char)
  | 0, _ => none
  | fuel + 1, s =>
    match s with
    | [] => none
    | c :: rest =>
      if c = quoteC then some ([], rest)
      else if c = backslashC then
        match rest with
        | [] => none
        | e :: rest2 =>
          if e = quoteC then (parseStringBody fuel rest2).map (fun p => (quoteC :: p.1, p.2))
          else if e = backslashC then
            (parseStringBody fuel rest2).map (fun p => (backslashC :: p.1, p.2))
          else if e = '/' then (parseStringBody fuel rest2).map (fun p => ('/' :: p.1, p.2))
          else if e = 'b' then
            (parseStringBody fuel rest2).map (fun p => (Char.ofNat 8 :: p.1, p.2))
          else if e = 'f' then
            (parseStringBody fuel rest2).map (fun p => (Char.ofNat 12 :: p.1, p.2))
          else if e = 'n' then (parseStringBody fuel rest2).map (fun p => ('\n' :: p.1, p.2))
          else if e = 'r' then (parseStringBody fuel rest2).map (fun p => ('\r' :: p.1, p.2))
          else if e = 't' then (parseStringBody fuel rest2).map (fun p => ('\t' :: p.1, p.2))
          else if e = 'u' then
            match rest2 with
            | h1 :: h2 :: h3 :: h4 :: rest3 =>
              match hexVal h1, hexVal h2, hexVal h3, hexVal h4 with
              | some a, some b, some c2, some d =>
                let n := a * 4096 + b * 256 + c2 * 16 + d
                if 55296 ≤ n ∧ n ≤ 57343 then none
                else (parseStringBody fuel rest3).map (fun p => (Char.ofNat n :: p.1, p.2))
              | _, _, _, _ => none
            | _ => none
          else none
      else if c.toNat < 32 then none
      else (parseStringBody fuel rest).map (fun p => (c :: p.1, p.2))

mutual

/-- Fueled JSON value parser: whitespace, then a string, array, object,
keyword or number.  Any fuel of at least `jsize` of the value suffices. -/
def parseValue : Nat → List Char → Option (Json × List Char)
  | 0, _ => none
  | fuel + 1, s =>
    match skipWs s with
    | [] => none
    | c :: rest =>
      if c = quoteC then (parseStringBody (fuel + 1) rest).map (fun p => (Json.str p.1, p.2))
      else if c = '[' then parseArrayRest fuel rest
      else if c = lbrace then parseObjectRest fuel rest
      else if c = 'n' then
        match rest with
        | 'u' :: 'l' :: 'l' :: r => some (Json.null, r)
        | _ => none
      else if c = 't' then
        match rest with
        | 'r' :: 'u' :: 'e' :: r => some (Json.bool true, r)
        | _ => none
      else if c = 'f' then
        match rest with
        | 'a' :: 'l' :: 's' :: 'e' :: r => some (Json.bool false, r)
        | _ => none
      else if c = '-' ∨ isDigitChar c then parseNumber (c :: rest)
      else none

/-- Parse the remainder of an array after its opening bracket. -/
def parseArrayRest : Nat → List Char → Option (Json × List Char)
  | 0, _ => none
  | fuel + 1, s =>
    match skipWs s with
    | [] => none
    | c :: rest =>
      if c = ']' then some (Json.arr [], rest)
      else
        match parseValue fuel (c :: rest) with
        | none => none
        | some (v, r) =>
          match parseElemsMore fuel r with
          | none => none
          | some (vs, r2) => some (Json.arr (v :: vs), r2)

/-- Parse `, value` continuations and the closing bracket of an array. -/
def parseElemsMore : Nat → List Char → Option (List Json × List Char)
  | 0, _ => none
  | fuel + 1, s =>
    match skipWs s with
    | [] => none
    | c :: rest =>
      if c = ']' then some ([], rest)
      else if c = ',' then
        match parseValue fuel rest with
        | none => none
        | some (v, r) =>
          match parseElemsMore fuel r with
          | none => none
          | some (vs, r2) => some (v :: vs, r2)
      else none

/-- Parse the remainder of an object after its opening brace. -/
def parseObjectRest : Nat → List Char → Option (Json × List Char)
  | 0, _ => none
  | fuel + 1, s =>
    match skipWs s with
    | [] => none
    | c :: rest =>
      if c = rbrace then some (Json.obj [], rest)
      else if c = quoteC then
        match parseStringBody (fuel + 1) rest with
        | none => none
        | some (k, r1) =>
          match skipWs r1 with
          | [] => none
          | c2 :: r2 =>
            if c2 = ':' then
              match parseValue fuel r2 with
              | none => none
              | some (v, r3) =>
                match parseMembersMore fuel r3 with
                | none => none
                | some (ms, r4) => some (Json.obj ((k, v) :: ms), r4)
            else none
      else none

/-- Parse `, "key": value` continuations and the closing brace. -/
def parseMembersMore : Nat → List Char → Option (List (List Char × Json) × List Char)
  | 0, _ => none
  | fuel + 1, s =>
    match skipWs s with
    | [] => none
    | c :: rest =>
      if c = rbrace then some ([], rest)
      else if c = ',' then
        match skipWs rest with
        | [] => none
        | c2 :: r1 =>
          if c2 = quoteC then
            match parseStringBody (fuel + 1) r1 with
            | none => none
            | some (k, r2) =>
              match skipWs r2 with
              | [] => none
              | c3 :: r3 =>
                if c3 = ':' then
                  match parseValue fuel r3 with
                  | none => none
                  | some (v, r4) =>
                    match parseMembersMore fuel r4 with
                    | none => none
                    | some (ms, r5) => some ((k, v) :: ms, r5)
                else none
          else none
      else none

end

/-- Model of `json.Unmarshal` restricted to a single value: parse one value
and require only whitespace to follow.  The fuel is generous for any input
(`parse_fuel_le` below shows serializer outputs stay within it). -/
def jsonUnmarshal (s : List Char) : Option Json :=
  match parseValue (2 * s.length + 4) s with
  | none => none
  | some (v, rest) => if skipWs rest = [] then some v else none

/-- Whether a suffix can legally follow a serialized number: empty input or
a non-digit first character (used to state the round-trip lemmas). -/
def delimOk : List Char → Bool
  | [] => true
  | c :: _ => !(isDigitChar c)

/-- A directory entry as `os.ReadDir` reports it.  `execInfo` is `none` when
`file.Info()` errors, otherwise whether any execute bit is set in the mode. -/
structure DirEntry where
  name : String
  isDir : Bool
  execInfo : Option Bool

/-- Model of `filepath.SplitList` on a Unix path-list separator. -/
def splitList (s : String) : List String := if s = "" then [] else s.splitOn ":"

/-- Whether one directory entry yields a plugin candidate: a non-directory
whose name starts with `ctx-`, is not the orchestrator's own executable, and
whose mode marks it executable (every file qualifies on Windows). -/
def entryPlugin (absPath selfPath : String) (isWindows : Bool)
    (file : DirEntry) : Option String :=
  if file.isDir then none
  else if ¬ (file.name.startsWith "ctx-") then none
  else
    let pluginPath := joinPath absPath file.name
    if pluginPath = selfPath then none
    else
      match file.execInfo with
      | none => none
      | some ex => if ex || isWindows then some pluginPath else none

/-- The directory scan of `findPlugins`: resolve each `PATH` entry, skip
empties, unresolvable entries, already-visited directories and unreadable
directories, and collect the candidate entries of the rest. -/
def findPluginsScan (absf : String → Option String)
    (readDir : String → Option (List DirEntry)) (selfPath : String)
    (isWindows : Bool) : List String → List String → List String
  | [], _ => []
  | path :: rest, checked =>
    if path = "" then findPluginsScan absf readDir selfPath isWindows rest checked
    else
      match absf path with
      | none => findPluginsScan absf readDir selfPath isWindows rest checked
      | some absPath =>
        if checked.contains absPath then
          findPluginsScan absf readDir selfPath isWindows rest checked
        else
          match readDir absPath with
          | none => findPluginsScan absf readDir selfPath isWindows rest (absPath :: checked)
          | some files =>
            files.filterMap (entryPlugin absPath selfPath isWindows)
              ++ findPluginsScan absf readDir selfPath isWindows rest (absPath :: checked)

/-- Model of `findPlugins`: fail exactly when `PATH` is absent or empty,
otherwise scan its directories. -/
def findPlugins (env : Env) (absf : String → Option String)
    (readDir : String → Option (List DirEntry)) (selfPath : String)
    (isWindows : Bool) : Except String (List String) :=
  let pathEnv := getenv env "PATH"
  if pathEnv = "" then Except.error "PATH environment variable is not set"
  else Except.ok (findPluginsScan absf readDir selfPath isWindows (splitList pathEnv) [])

/-- Lowercase fold of a key, modelling Go's case-insensitive JSON field
matching for struct fields. -/
def lowerKey (k : List Char) : List Char := k.map Char.toLower

/-- Accumulator for decoding a plugin envelope into the `PluginData` struct:
the three struct fields (`data` as an optional raw value, `none` meaning the
field never appeared, which is Go's `nil` `RawMessage`), and whether a field
had the wrong type (Go's `UnmarshalTypeError`, which makes `json.Unmarshal`
return an error). -/
structure EnvelopeFields where
  name : List Char
  version : List Char
  data : Option Json
  bad : Bool
deriving DecidableEq

/-- Walk the members of the top-level object in order, assigning the struct
fields; a later duplicate key overwrites an earlier one, as in Go. -/
def envelopeFold : List (List Char × Json) → EnvelopeFields → EnvelopeFields
  | [], acc => acc
  | (k, v) :: rest, acc =>
    let kl := lowerKey k
    let acc2 :=
      if kl = "name".data then
        match v with
        | .str s => { acc with name := s }
        | _ => { acc with bad := true }
      else if kl = "version".data then
        match v with
        | .str s => { acc with version := s }
        | _ => { acc with bad := true }
      else if kl = "data".data then { acc with data := some v }
      else acc
    envelopeFold rest acc2

/-- Model of `json.Unmarshal(stdout, &data)` for the `PluginData` struct:
the output must be one JSON object, and the `name`/`version`/`data` members
fill the fields (wrong-typed `name`/`version` is an error). -/
def parseEnvelope (out : List Char) : Option EnvelopeFields :=
  match jsonUnmarshal out with
  | some (.obj fs) =>
    let acc := envelopeFold fs ⟨[], [], none, false⟩
    if acc.bad then none else some acc
  | _ => none

/-- A validated plugin envelope (struct `PluginData` in the source, with the
raw `data` bytes held as their parsed tree). -/
structure PluginData where
  name : List Char
  version : List Char
  data : Json
deriving DecidableEq

instance : Inhabited PluginData := ⟨⟨[], [], Json.null⟩⟩

/-- The outcome of running one candidate: `cmd.Output()` either fails
(non-zero exit, spawn error or cancellation) or yields the captured
standard-output bytes. -/
inductive Outcome where
  | failure
  | success (stdout : List Char)
deriving DecidableEq

/-- The per-candidate body of `executePlugins`: discard failures, outputs
that do not parse as an envelope, and envelopes with empty `name`, empty
`version` or absent `data`. -/
def validateOutcome : Outcome → Option PluginData
  | .failure => none
  | .success out =>
    match parseEnvelope out with
    | none => none
    | some acc =>
      match acc.data with
      | none => none
      | some d =>
        if acc.name = [] ∨ acc.version = [] then none
        else some ⟨acc.name, acc.version, d⟩

/-- Go map assignment `results[name] = data` on an association list: replace
the entry in place when the key is present, append otherwise. -/
def insertResult : List (List Char × PluginData) → List Char → PluginData →
    List (List Char × PluginData)
  | [], k, v => [(k, v)]
  | (k0, v0) :: rest, k, v =>
    if k0 = k then (k, v) :: rest else (k0, v0) :: insertResult rest k v

/-- Model of `executePlugins`: each candidate's outcome is validated and the
valid envelopes are merged into the shared map under the mutex, keyed by the
reported `name`.  The outcome list carries the completion order, which the
scheduler leaves arbitrary; the admission gate itself is modelled by
`GateStep` below. -/
def executePlugins (outcomes : List Outcome) : List (List Char × PluginData) :=
  (outcomes.filterMap validateOutcome).foldl (fun acc pd => insertResult acc pd.name pd) []

/-- First entry for a key in an aggregate. -/
def lookupKey (l : List (List Char × PluginData)) (k : List Char) : Option PluginData :=
  (l.find? (fun p => p.1 = k)).map Prod.snd

/-- Number of entries carrying a key in an aggregate. -/
def countKey (l : List (List Char × PluginData)) (k : List Char) : Nat :=
  l.countP (fun p => decide (p.1 = k))

/-- The `outputData` map `formatOutput` builds: each envelope's `data` tree,
keyed by plugin name (re-parsing the stored raw bytes cannot fail, since
they were checked when the whole envelope was parsed). -/
def outputDataOf (results : List (List Char × PluginData)) : List (List Char × Json) :=
  results.map (fun p => (p.1, p.2.data))

/-- Newline plus indentation for the indented serializers. -/
def nlInd (ind depth : Nat) : List Char := '\n' :: List.replicate (ind * depth) ' '

mutual

/-- Model of `json.MarshalIndent` with empty prefix: like `serJson` but each
element or member on its own line, and `": "` after keys. -/
def serJsonInd (ind depth : Nat) : Json → List Char
  | .arr [] => ['[', ']']
  | .arr (x :: xs) =>
    '[' :: (nlInd ind (depth + 1) ++ serJsonInd ind (depth + 1) x
      ++ serElemsTailInd ind (depth + 1) xs ++ nlInd ind depth ++ [']'])
  | .obj [] => [lbrace, rbrace]
  | .obj (m :: ms) =>
    lbrace :: (nlInd ind (depth + 1) ++ serMemberInd ind (depth + 1) m
      ++ serMembersTailInd ind (depth + 1) ms ++ nlInd ind depth ++ [rbrace])
  | v => serJson v

/-- Indented serialization of the remaining array elements. -/
def serElemsTailInd (ind depth : Nat) : List Json → List Char
  | [] => []
  | x :: xs => ',' :: (nlInd ind depth ++ serJsonInd ind depth x ++ serElemsTailInd ind depth xs)

/-- Indented serialization of one object member. -/
def serMemberInd (ind depth : Nat) (m : List Char × Json) : List Char :=
  quoteC :: (escString m.1 ++ (quoteC :: (':' :: (' ' :: serJsonInd ind depth m.2))))

/-- Indented serialization of the remaining object members. -/
def serMembersTailInd (ind depth : Nat) : List (List Char × Json) → List Char
  | [] => []
  | m :: ms => ',' :: (nlInd ind depth ++ serMemberInd ind depth m ++ serMembersTailInd ind depth ms)

end

/-- One `<plugin>` element of the XML output (struct `XMLPlugin`): `name`
and `version` attributes and the re-marshalled JSON bytes as character
data. -/
structure XMLPlugin where
  name : List Char
  version : List Char
  data : List Char
deriving DecidableEq

/-- The XML document root (struct `XMLResults`): the `session_id` attribute
and one child element per plugin. -/
structure XMLResults where
  sessionID : String
  plugins : List XMLPlugin
deriving DecidableEq

/-- The `XMLResults` value `formatOutput` builds for the XML branch: the
`session_id` attribute is read from the orchestrator's own environment with
`os.Getenv`, and each aggregate entry contributes one `XMLPlugin` with the
envelope's name and version and its `data` tree re-marshalled to compact
JSON. -/
def xmlRoot (results : List (List Char × PluginData)) (env : Env) : XMLResults :=
  { sessionID := getenv env ctxSessionEnvKey
    plugins := results.map (fun p => ⟨p.2.name, p.2.version, serJson p.2.data⟩) }

/-- How `encoding/xml`'s `EscapeText` escapes one character (it is applied
to attribute values and to character data alike). -/
def xmlEscapeChar (c : Char) : List Char :=
  if c = quoteC then "&#34;".data
  else if c = Char.ofNat 39 then "&#39;".data
  else if c = '&' then "&amp;".data
  else if c = '<' then "&lt;".data
  else if c = '>' then "&gt;".data
  else if c = '\t' then "&#x9;".data
  else if c = '\n' then "&#xA;".data
  else if c = '\r' then "&#xD;".data
  else [c]

/-- XML text escaping, character by character. -/
def xmlEscape : List Char → List Char
  | [] => []
  | c :: cs => xmlEscapeChar c ++ xmlEscape cs

/-- Serialization of one `<plugin>` element: the `version` attribute is
omitted when empty (`omitempty`), and the data bytes are embedded as
escaped character data inside the `<data>` child element. -/
def xmlPluginSer (p : XMLPlugin) : List Char :=
  "<plugin name=\"".data ++ xmlEscape p.name ++ "\"".data
    ++ (if p.version ≠ [] then " version=\"".data ++ xmlEscape p.version ++ "\"".data else [])
    ++ ">".data ++ "<data>".data ++ xmlEscape p.data ++ "</data>".data ++ "</plugin>".data

/-- Serialization of the plugin elements in order. -/
def xmlPluginsSer : List XMLPlugin → List Char
  | [] => []
  | p :: ps => xmlPluginSer p ++ xmlPluginsSer ps

/-- Model of `xml.Marshal` on an `XMLResults` value (compact form). -/
def xmlMarshal (r : XMLResults) : List Char :=
  "<ctx_results session_id=\"".data ++ xmlEscape r.sessionID.data ++ "\">".data
    ++ xmlPluginsSer r.plugins ++ "</ctx_results>".data

/-- Indented serialization of one `<plugin>` element, as `xml.MarshalIndent`
lays it out: the start tag at depth 1, the `<data>` child on its own line at
depth 2 (its end tag inline after the character data, since the element
holds only text), and `</plugin>` on its own line back at depth 1. -/
def xmlPluginSerInd (ind : Nat) (p : XMLPlugin) : List Char :=
  "<plugin name=\"".data ++ xmlEscape p.name ++ "\"".data
    ++ (if p.version ≠ [] then " version=\"".data ++ xmlEscape p.version ++ "\"".data else [])
    ++ ">".data ++ nlInd ind 2 ++ "<data>".data ++ xmlEscape p.data ++ "</data>".data
    ++ nlInd ind 1 ++ "</plugin>".data

/-- Model of `xml.MarshalIndent` on an `XMLResults` value with empty prefix
and an indent of `ind` spaces: no newline before the root start tag, each
`<plugin>` on its own line at depth 1, and the root end tag on its own
unindented line — or inline right after the start tag when there are no
plugin elements, since the printer suppresses the newline before the end
tag of an element with no child elements. -/
def xmlMarshalInd (ind : Nat) (r : XMLResults) : List Char :=
  "<ctx_results session_id=\"".data ++ xmlEscape r.sessionID.data ++ "\">".data
    ++ (r.plugins.foldr
        (fun p acc => nlInd ind 1 ++ xmlPluginSerInd ind p ++ acc) [])
    ++ (if r.plugins = [] then [] else ['\n']) ++ "</ctx_results>".data

/-- The fixed XML declaration (`xml.Header`) the XML branch prepends. -/
def xmlHeader : List Char := "<?xml version=\"1.0\" encoding=\"UTF-8\"?>\n".data

/-- Model of the external `sigs.k8s.io/yaml` marshaller on the aggregate:
the library is outside this repository, so only its observable shape is
modelled — total, `\x7b\x7d` for the empty map and one `key: value` line
per entry (flow-style scalars), always newline-terminated.  No claim
concerns the YAML text beyond its existence. -/
def yamlMarshal (fields : List (List Char × Json)) : List Char :=
  match fields with
  | [] => lbrace :: rbrace :: ['\n']
  | _ => fields.foldr (fun m acc => m.1 ++ ':' :: ' ' :: (serJson m.2 ++ '\n' :: acc)) []

/-- Model of `strings.ToLower` (sufficient for the ASCII format names the
source compares against). -/
def goToLower (s : String) : String := String.mk (s.data.map Char.toLower)

/-- Model of `formatOutput`: build `outputData`, select the format (the
default and unknown formats fall through to YAML), serialize, and append a
trailing newline when the bytes are nonempty and lack one.  The marshal
error paths of the source cannot fire on these inputs, so the result is
always `ok`; the `Except` shape of the source is kept. -/
def formatOutput (results : List (List Char × PluginData)) (cfg : config)
    (env : Env) : Except String (List Char) :=
  let outputData := outputDataOf results
  let compact : Bool := cfg.summary || cfg.indent ≤ 0
  let fmt := goToLower cfg.outputFormat
  let outputBytes : List Char :=
    if fmt = "json" then
      if compact then serJson (Json.obj outputData)
      else serJsonInd cfg.indent.toNat 0 (Json.obj outputData)
    else if fmt = "xml" then
      let root := xmlRoot results env
      xmlHeader ++ (if compact then xmlMarshal root else xmlMarshalInd cfg.indent.toNat root)
    else yamlMarshal outputData
  if outputBytes ≠ [] ∧ outputBytes.getLast? ≠ some '\n' then
    Except.ok (outputBytes ++ ['\n'])
  else Except.ok outputBytes

/-- State of the admission gate of `executePlugins`: how many candidates the
main loop has not yet admitted, how many semaphore tokens sit in the channel
buffer, how many workers are running, how many finished workers are blocked
in their deferred `<-semaphore` receive, and how many are fully done. -/
structure GateState where
  remaining : Nat
  buffered : Nat
  running : Nat
  releasing : Nat
  finished : Nat
deriving DecidableEq

/-- Initial gate state: all candidates pending. -/
def gateInit (n : Nat) : GateState := ⟨n, 0, 0, 0, 0⟩

/-- The gate has joined: no candidate pending, running or releasing. -/
def gateDone (s : GateState) : Prop :=
  s.remaining = 0 ∧ s.running = 0 ∧ s.releasing = 0

/-- Transitions of the admission gate, following the channel semantics of
`semaphore := make(chan struct, maxParallel)`: the main loop sends a token
*before* spawning the worker that will eventually receive it.  A send
completes by buffering when the buffer has room, or — on an unbuffered
channel — by rendezvous with a worker already blocked in its deferred
receive.  A finished worker's receive completes against a buffered token. -/
inductive GateStep (cap : Nat) : GateState → GateState → Prop where
  | sendBuffered (s : GateState) : 0 < s.remaining → s.buffered < cap →
      GateStep cap s ⟨s.remaining - 1, s.buffered + 1, s.running + 1, s.releasing, s.finished⟩
  | sendRendezvous (s : GateState) : cap = 0 → 0 < s.remaining → 0 < s.releasing →
      GateStep cap s ⟨s.remaining - 1, s.buffered, s.running + 1, s.releasing - 1, s.finished + 1⟩
  | workDone (s : GateState) : 0 < s.running →
      GateStep cap s ⟨s.remaining, s.buffered, s.running - 1, s.releasing + 1, s.finished⟩
  | releaseBuffered (s : GateState) : 0 < s.releasing → 0 < s.buffered →
      GateStep cap s ⟨s.remaining, s.buffered - 1, s.running, s.releasing - 1, s.finished + 1⟩

/-- Characters are equal when their code points are. -/
theorem char_eq_of_toNat {a b : Char} (h : a.toNat = b.toNat) : a = b := by
  have ha := Char.ofNat_toNat a
  have hb := Char.ofNat_toNat b
  rw [← ha, ← hb, h]

/-- Code point of a decimal digit character. -/
theorem digitChar_toNat {d : Nat} (h : d < 10) : (digitChar d).toNat = 48 + d := by
  interval_cases d <;> decide

/-- `digitVal` inverts `digitChar` on digits. -/
theorem digitVal_digitChar {d : Nat} (h : d < 10) : digitVal (digitChar d) = d := by
  simp [digitVal, digitChar_toNat h]

/-- Digit characters test as digits. -/
theorem isDigitChar_digitChar {d : Nat} (h : d < 10) : isDigitChar (digitChar d) = true := by
  simp only [isDigitChar, digitChar_toNat h]
  simp only [Bool.and_eq_true, decide_eq_true_eq]
  omega

/-- Digit characters are not whitespace. -/
theorem isWsChar_digitChar {d : Nat} (h : d < 10) : isWsChar (digitChar d) = false := by
  simp only [isWsChar, digitChar_toNat h]
  simp only [Bool.or_eq_false_iff, decide_eq_false_iff_not]
  omega

/-- A digit character differs from any character with another code point. -/
theorem digitChar_ne {d : Nat} (h : d < 10) (x : Char) (hx : x.toNat < 48 ∨ 57 < x.toNat) :
    ¬ digitChar d = x := by
  intro heq
  have := congrArg Char.toNat heq
  rw [digitChar_toNat h] at this
  omega

/-- `skipWs` leaves input starting with a non-whitespace character alone. -/
theorem skipWs_cons {c : Char} (s : List Char) (h : isWsChar c = false) :
    skipWs (c :: s) = c :: s := by
  simp [skipWs, h]

/-- Digit lists produced by `natDigits` are never empty. -/
theorem natDigits_ne_nil (fuel n : Nat) : natDigits fuel n ≠ [] := by
  cases fuel with
  | zero => simp [natDigits]
  | succ fuel =>
    simp only [natDigits]
    split
    · simp
    · simp

/-- All entries of `natDigits` are digits. -/
theorem natDigits_lt10 (fuel : Nat) : ∀ n d, d ∈ natDigits fuel n → d < 10 := by

  induction fuel with
  | zero =>
    intro n d hd
    simp only [natDigits, List.mem_singleton] at hd
    omega
  | succ fuel ih =>
    intro n d hd
    by_cases h : n < 10
    · simp only [natDigits, if_pos h, List.mem_singleton] at hd
      omega
    · simp only [natDigits, if_neg h, List.mem_append, List.mem_singleton] at hd
      rcases hd with hd | hd
      · exact ih _ d hd
      · omega

/-- Folding the digits of `n` under any accumulator. -/
theorem foldl_natDigits (fuel : Nat) : ∀ n a, n ≤ fuel →
    (natDigits fuel n).foldl (fun acc d => acc * 10 + d) a
      = a * 10 ^ (natDigits fuel n).length + n := by
  induction fuel with
  | zero =>
    intro n a hn
    interval_cases n
    simp [natDigits]
  | succ fuel ih =>
    intro n a hn
    by_cases h : n < 10
    · simp [natDigits, h]
    · have hdiv : n / 10 ≤ fuel := by omega
      simp only [natDigits, if_neg h, List.foldl_append, List.length_append,
        List.foldl_cons, List.foldl_nil, List.length_cons, List.length_nil]
      rw [ih (n / 10) a hdiv]
      have := Nat.div_add_mod n 10
      ring_nf
      omega

/-- The leading digit of a nonzero number is nonzero. -/
theorem natDigits_head (fuel : Nat) : ∀ n d ds, n ≠ 0 → n ≤ fuel →
    natDigits fuel n = d :: ds → d ≠ 0 := by
  induction fuel with
  | zero =>
    intro n d ds hn hf
    omega
  | succ fuel ih =>
    intro n d ds hn hf hds
    by_cases h : n < 10
    · simp only [natDigits, if_pos h, List.cons.injEq] at hds
      omega
    · simp only [natDigits, if_neg h] at hds
      obtain ⟨e, es, hes⟩ :
          ∃ e es, natDigits fuel (n / 10) = e :: es := by
        rcases hnn : natDigits fuel (n / 10) with _ | ⟨e, es⟩
        · exact absurd hnn (natDigits_ne_nil fuel (n / 10))
        · exact ⟨e, es, rfl⟩
      rw [hes, List.cons_append, List.cons.injEq] at hds
      have hde : e = d := hds.1
      rw [← hde]
      exact ih (n / 10) e es (by omega) (by omega) hes

/-- Every character of `printNat` is a digit character. -/
theorem printNat_digits (n : Nat) : ∀ c ∈ printNat n, isDigitChar c = true := by
  intro c hc
  simp only [printNat, List.mem_map] at hc
  obtain ⟨d, hd, rfl⟩ := hc
  exact isDigitChar_digitChar (natDigits_lt10 n n d hd)

/-- Folding digit characters equals folding their values. -/
theorem foldl_map_digitChar (ds : List Nat) : (∀ d ∈ ds, d < 10) → ∀ a : Nat,
    (ds.map digitChar).foldl (fun acc c => acc * 10 + digitVal c) a
      = ds.foldl (fun acc d => acc * 10 + d) a := by
  induction ds with
  | nil => intro _ a; simp
  | cons d ds ih =>
    intro h a
    simp only [List.map_cons, List.foldl_cons]
    rw [digitVal_digitChar (h d (by simp))]
    exact ih (fun e he => h e (by simp [he])) _

/-- `foldDigits` inverts `printNat`. -/
theorem foldDigits_printNat (n : Nat) : foldDigits (printNat n) = n := by
  have h1 := foldl_map_digitChar (natDigits n n) (fun d hd => natDigits_lt10 n n d hd) 0
  have h2 := foldl_natDigits n n 0 le_rfl
  simp only [foldDigits, printNat]
  rw [h1, h2]
  simp

/-- `takeDigits` splits a digit block off a non-digit suffix. -/
theorem takeDigits_append (ds rest : List Char) (h : ∀ c ∈ ds, isDigitChar c = true)
    (hr : delimOk rest = true) : takeDigits (ds ++ rest) = (ds, rest) := by
  induction ds with
  | nil =>
    cases rest with
    | nil => rfl
    | cons c r =>
      simp only [delimOk, Bool.not_eq_true'] at hr
      simp [takeDigits, hr]
  | cons c cs ih =>
    have hih := ih (fun e he => h e (by simp [he]))
    simp [takeDigits, h c (by simp), List.append_eq, hih]

/-- `parseNatNum` inverts `printNat` before any legal suffix. -/
theorem parseNatNum_printNat (n : Nat) (rest : List Char) (hr : delimOk rest = true) :
    parseNatNum (printNat n ++ rest) = some (n, rest) := by
  have htd := takeDigits_append (printNat n) rest (printNat_digits n) hr
  by_cases hn : n = 0
  · subst hn
    have hp : printNat 0 = [digitChar 0] := rfl
    rw [hp] at htd ⊢
    simp only [parseNatNum, htd]
    have h0 : ¬ (digitChar 0 = '0' ∧ ([] : List Char) ≠ []) := by
      rintro ⟨-, h⟩
      exact h rfl
    rw [if_neg h0]
    have : foldDigits [digitChar 0] = 0 := by decide
    rw [this]
  · obtain ⟨d, ds, hds⟩ : ∃ d ds, natDigits n n = d :: ds := by
      rcases hnn : natDigits n n with _ | ⟨d, ds⟩
      · exact absurd hnn (natDigits_ne_nil n n)
      · exact ⟨d, ds, rfl⟩
    have hd0 : d ≠ 0 := natDigits_head n n d ds hn le_rfl hds
    have hd10 : d < 10 := natDigits_lt10 n n d (by rw [hds]; exact List.mem_cons_self d ds)
    have hprint : printNat n = digitChar d :: ds.map digitChar := by
      simp [printNat, hds]
    have hfold : foldDigits (digitChar d :: ds.map digitChar) = n := by
      rw [← hprint]
      exact foldDigits_printNat n
    rw [hprint] at htd ⊢
    simp only [parseNatNum, htd]
    rw [if_neg, hfold]
    rintro ⟨heq, -⟩
    have h48 := congrArg Char.toNat heq
    rw [digitChar_toNat hd10] at h48
    have h0 : ('0' : Char).toNat = 48 := by decide
    rw [h0] at h48
    omega

/-- Decomposition of `printNat` as a digit head and mapped tail. -/
theorem printNat_decomp (m : Nat) :
    ∃ (d : Nat) (ds : List Nat), d < 10 ∧ printNat m = digitChar d :: ds.map digitChar := by
  obtain ⟨d, ds, hds⟩ : ∃ d ds, natDigits m m = d :: ds := by
    rcases hnn : natDigits m m with _ | ⟨d, ds⟩
    · exact absurd hnn (natDigits_ne_nil m m)
    · exact ⟨d, ds, rfl⟩
  refine ⟨d, ds, natDigits_lt10 m m d (by rw [hds]; exact List.mem_cons_self d ds), ?_⟩
  simp [printNat, hds]

/-- `parseNumber` inverts `serInt` before any legal suffix. -/
theorem parseNumber_serInt (i : Int) (rest : List Char) (hr : delimOk rest = true) :
    parseNumber (serInt i ++ rest) = some (Json.num i, rest) := by
  by_cases hi : i < 0
  · have hs : serInt i = '-' :: printNat (-i).toNat := by simp [serInt, hi]
    rw [hs]
    have hpn := parseNatNum_printNat (-i).toNat rest hr
    have hcast : (((-i).toNat : Nat) : Int) = -i := Int.toNat_of_nonneg (by omega)
    simp [parseNumber, hpn, hcast]
  · push_neg at hi
    have hs : serInt i = printNat i.toNat := by simp [serInt, not_lt.mpr hi]
    obtain ⟨d, ds, hd10, hprint⟩ := printNat_decomp i.toNat
    have hpn := parseNatNum_printNat i.toNat rest hr
    rw [hprint] at hpn
    simp only [List.cons_append] at hpn
    rw [hs, hprint]
    simp only [List.cons_append, parseNumber]
    rw [if_neg (digitChar_ne hd10 '-' (by left; decide)), hpn]
    simp [Int.toNat_of_nonneg hi]

/-- Stepping the string parser over an escaped quote. -/
theorem psb_esc_quote (fuel : Nat) (t : List Char) :
    parseStringBody (fuel + 1) (backslashC :: (quoteC :: t))
      = (parseStringBody fuel t).map (fun p => (quoteC :: p.1, p.2)) := rfl

/-- Stepping the string parser over an escaped backslash. -/
theorem psb_esc_backslash (fuel : Nat) (t : List Char) :
    parseStringBody (fuel + 1) (backslashC :: (backslashC :: t))
      = (parseStringBody fuel t).map (fun p => (backslashC :: p.1, p.2)) := rfl

/-- Stepping the string parser over an escaped newline. -/
theorem psb_esc_n (fuel : Nat) (t : List Char) :
    parseStringBody (fuel + 1) (backslashC :: ('n' :: t))
      = (parseStringBody fuel t).map (fun p => ('\n' :: p.1, p.2)) := rfl

/-- Stepping the string parser over an escaped carriage return. -/
theorem psb_esc_r (fuel : Nat) (t : List Char) :
    parseStringBody (fuel + 1) (backslashC :: ('r' :: t))
      = (parseStringBody fuel t).map (fun p => ('\r' :: p.1, p.2)) := rfl

/-- Stepping the string parser over an escaped tab. -/
theorem psb_esc_t (fuel : Nat) (t : List Char) :
    parseStringBody (fuel + 1) (backslashC :: ('t' :: t))
      = (parseStringBody fuel t).map (fun p => ('\t' :: p.1, p.2)) := rfl

/-- Stepping the string parser over the escape of a left angle bracket. -/
theorem psb_esc_lt (fuel : Nat) (t : List Char) :
    parseStringBody (fuel + 1) (backslashC :: ('u' :: ('0' :: ('0' :: ('3' :: ('c' :: t))))))
      = (parseStringBody fuel t).map (fun p => ('<' :: p.1, p.2)) := rfl

/-- Stepping the string parser over the escape of a right angle bracket. -/
theorem psb_esc_gt (fuel : Nat) (t : List Char) :
    parseStringBody (fuel + 1) (backslashC :: ('u' :: ('0' :: ('0' :: ('3' :: ('e' :: t))))))
      = (parseStringBody fuel t).map (fun p => ('>' :: p.1, p.2)) := rfl

/-- Stepping the string parser over the escape of an ampersand. -/
theorem psb_esc_amp (fuel : Nat) (t : List Char) :
    parseStringBody (fuel + 1) (backslashC :: ('u' :: ('0' :: ('0' :: ('2' :: ('6' :: t))))))
      = (parseStringBody fuel t).map (fun p => ('&' :: p.1, p.2)) := rfl

/-- Stepping the string parser over the escape of U+2028. -/
theorem psb_esc_ls (fuel : Nat) (t : List Char) :
    parseStringBody (fuel + 1) (backslashC :: ('u' :: ('2' :: ('0' :: ('2' :: ('8' :: t))))))
      = (parseStringBody fuel t).map (fun p => (Char.ofNat 8232 :: p.1, p.2)) := rfl

/-- Stepping the string parser over the escape of U+2029. -/
theorem psb_esc_ps (fuel : Nat) (t : List Char) :
    parseStringBody (fuel + 1) (backslashC :: ('u' :: ('2' :: ('0' :: ('2' :: ('9' :: t))))))
      = (parseStringBody fuel t).map (fun p => (Char.ofNat 8233 :: p.1, p.2)) := rfl

/-- Value of the emitted lowercase hex digit. -/
theorem hexVal_hexDigit {m : Nat} (h : m < 16) : hexVal (hexDigit m) = some m := by
  interval_cases m <;> decide

/-- Stepping the string parser over a general `\u00xx` control escape. -/
theorem psb_esc_u00 (fuel : Nat) (t : List Char) (hi lo : Nat) (hhi : hi < 16) (hlo : lo < 16)
    (hn : hi * 16 + lo < 55296) :
    parseStringBody (fuel + 1)
        (backslashC :: ('u' :: ('0' :: ('0' :: (hexDigit hi :: (hexDigit lo :: t))))))
      = (parseStringBody fuel t).map (fun p => (Char.ofNat (hi * 16 + lo) :: p.1, p.2)) := by
  have h1 : hexVal (hexDigit hi) = some hi := hexVal_hexDigit hhi
  have h2 : hexVal (hexDigit lo) = some lo := hexVal_hexDigit hlo
  have h0 : hexVal '0' = some 0 := by decide
  simp only [parseStringBody]
  simp +decide only [h0, h1, h2, if_true, if_false]
  rw [if_neg (by omega)]
  norm_num

/-- Stepping the string parser over an unescaped character. -/
theorem psb_raw (fuel : Nat) (c : Char) (t : List Char) (h1 : ¬ c = quoteC)
    (h2 : ¬ c = backslashC) (h3 : ¬ c.toNat < 32) :
    parseStringBody (fuel + 1) (c :: t)
      = (parseStringBody fuel t).map (fun p => (c :: p.1, p.2)) := by
  simp only [parseStringBody]
  rw [if_neg h1, if_neg h2, if_neg h3]

/-- The string parser undoes `escChar` for every character. -/
theorem parseStringBody_escChar (c : Char) (fuel : Nat) (t : List Char) :
    parseStringBody (fuel + 1) (escChar c ++ t)
      = (parseStringBody fuel t).map (fun p => (c :: p.1, p.2)) := by
  by_cases h1 : c = quoteC
  · subst h1; exact psb_esc_quote fuel t
  by_cases h2 : c = backslashC
  · subst h2; exact psb_esc_backslash fuel t
  by_cases h3 : c = '\n'
  · subst h3; exact psb_esc_n fuel t
  by_cases h4 : c = '\r'
  · subst h4; exact psb_esc_r fuel t
  by_cases h5 : c = '\t'
  · subst h5; exact psb_esc_t fuel t
  by_cases h6 : c.toNat < 32
  · have he : escChar c
        = [backslashC, 'u', '0', '0', hexDigit (c.toNat / 16), hexDigit (c.toNat % 16)] := by
      simp only [escChar, if_neg h1, if_neg h2, if_neg h3, if_neg h4, if_neg h5, if_pos h6]
    have hmod : c.toNat / 16 * 16 + c.toNat % 16 = c.toNat := by
      have := Nat.div_add_mod c.toNat 16
      omega
    have hstep := psb_esc_u00 fuel t (c.toNat / 16) (c.toNat % 16)
      (by omega) (by omega) (by omega)
    rw [hmod, Char.ofNat_toNat] at hstep
    rw [he]
    simpa using hstep
  by_cases h7 : c = '<'
  · subst h7; exact psb_esc_lt fuel t
  by_cases h8 : c = '>'
  · subst h8; exact psb_esc_gt fuel t
  by_cases h9 : c = '&'
  · subst h9; exact psb_esc_amp fuel t
  by_cases h10 : c.toNat = 8232
  · have he : escChar c = [backslashC, 'u', '2', '0', '2', '8'] := by
      simp only [escChar, if_neg h1, if_neg h2, if_neg h3, if_neg h4, if_neg h5, if_neg h6,
        if_neg h7, if_neg h8, if_neg h9, if_pos h10]
    have hc : Char.ofNat 8232 = c := by rw [← h10, Char.ofNat_toNat]
    have hstep := psb_esc_ls fuel t
    rw [hc] at hstep
    rw [he]
    simpa using hstep
  by_cases h11 : c.toNat = 8233
  · have he : escChar c = [backslashC, 'u', '2', '0', '2', '9'] := by
      simp only [escChar, if_neg h1, if_neg h2, if_neg h3, if_neg h4, if_neg h5, if_neg h6,
        if_neg h7, if_neg h8, if_neg h9, if_neg h10, if_pos h11]
    have hc : Char.ofNat 8233 = c := by rw [← h11, Char.ofNat_toNat]
    have hstep := psb_esc_ps fuel t
    rw [hc] at hstep
    rw [he]
    simpa using hstep
  · have he : escChar c = [c] := by
      simp only [escChar, if_neg h1, if_neg h2, if_neg h3, if_neg h4, if_neg h5, if_neg h6,
        if_neg h7, if_neg h8, if_neg h9, if_neg h10, if_neg h11]
    rw [he]
    exact psb_raw fuel c t h1 h2 h6

/-- The string parser undoes `escString` up to the closing quote. -/
theorem parseStringBody_esc (s : List Char) : ∀ fuel rest, s.length + 1 ≤ fuel →
    parseStringBody fuel (escString s ++ (quoteC :: rest)) = some (s, rest) := by
  induction s with
  | nil =>
    intro fuel rest hf
    obtain ⟨f, rfl⟩ : ∃ f, fuel = f + 1 := ⟨fuel - 1, by omega⟩
    rfl
  | cons c cs ih =>
    intro fuel rest hf
    obtain ⟨f, rfl⟩ : ∃ f, fuel = f + 1 := ⟨fuel - 1, by omega⟩
    have hsplit : escString (c :: cs) ++ (quoteC :: rest)
        = escChar c ++ (escString cs ++ (quoteC :: rest)) := by
      simp [escString, List.append_assoc]
    rw [hsplit, parseStringBody_escChar c f _, ih f rest (by simp at hf; omega)]
    rfl

/-- Characters with distinct code points are distinct. -/
theorem char_ne_of_toNat_ne {a b : Char} (h : a.toNat ≠ b.toNat) : ¬ a = b :=
  fun heq => h (congrArg Char.toNat heq)

/-- A serialized number may be followed by a closing bracket. -/
theorem delimOk_ser_tail_arr (xs : List Json) (rest : List Char) :
    delimOk (serElemsTail xs ++ (']' :: rest)) = true := by
  cases xs <;> rfl

/-- A serialized number may be followed by a closing brace. -/
theorem delimOk_ser_tail_obj (ms : List (List Char × Json)) (rest : List Char) :
    delimOk (serMembersTail ms ++ (rbrace :: rest)) = true := by
  cases ms <;> rfl

/-- Every serialization starts with a non-whitespace character other than a
closing bracket. -/
theorem serJson_head (v : Json) :
    ∃ c t, serJson v = c :: t ∧ isWsChar c = false ∧ ¬ c = ']' := by
  cases v with
  | null => exact ⟨'n', _, rfl, by decide, by decide⟩
  | bool b => cases b with
    | true => exact ⟨'t', _, rfl, by decide, by decide⟩
    | false => exact ⟨'f', _, rfl, by decide, by decide⟩
  | num i =>
    by_cases hi : i < 0
    · exact ⟨'-', printNat (-i).toNat, by simp [serJson, serInt, hi], by decide, by decide⟩
    · obtain ⟨d, ds, hd10, hprint⟩ := printNat_decomp i.toNat
      refine ⟨digitChar d, List.map digitChar ds, ?_, isWsChar_digitChar hd10, ?_⟩
      · rw [show serJson (Json.num i) = serInt i from rfl,
          show serInt i = printNat i.toNat from by simp [serInt, hi], hprint]
      · exact digitChar_ne hd10 ']' (by right; decide)
  | str s => exact ⟨quoteC, _, rfl, by decide, by decide⟩
  | arr xs => cases xs with
    | nil => exact ⟨'[', _, rfl, by decide, by decide⟩
    | cons x xs2 => exact ⟨'[', _, rfl, by decide, by decide⟩
  | obj fs => cases fs with
    | nil => exact ⟨lbrace, _, rfl, by decide, by decide⟩
    | cons m ms => exact ⟨lbrace, _, rfl, by decide, by decide⟩

/-- Value dispatch on an opening quote. -/
theorem pv_step_quote (f : Nat) (X : List Char) :
    parseValue (f + 1) (quoteC :: X)
      = (parseStringBody (f + 1) X).map (fun p => (Json.str p.1, p.2)) := rfl

/-- Value dispatch on an opening bracket. -/
theorem pv_step_lbrack (f : Nat) (X : List Char) :
    parseValue (f + 1) ('[' :: X) = parseArrayRest f X := rfl

/-- Value dispatch on an opening brace. -/
theorem pv_step_lbrace (f : Nat) (X : List Char) :
    parseValue (f + 1) (lbrace :: X) = parseObjectRest f X := rfl

/-- Value dispatch on a minus sign. -/
theorem pv_step_minus (f : Nat) (X : List Char) :
    parseValue (f + 1) ('-' :: X) = parseNumber ('-' :: X) := rfl

/-- Value dispatch on a digit. -/
theorem pv_step_num (f : Nat) (c : Char) (X : List Char) (h48 : 48 ≤ c.toNat)
    (h57 : c.toNat ≤ 57) : parseValue (f + 1) (c :: X) = parseNumber (c :: X) := by
  have hws : isWsChar c = false := by
    simp only [isWsChar, Bool.or_eq_false_iff, decide_eq_false_iff_not]
    omega
  simp only [parseValue, skipWs_cons X hws]
  rw [if_neg (char_ne_of_toNat_ne (show c.toNat ≠ quoteC.toNat by rw [show quoteC.toNat = 34 from rfl]; omega)),
    if_neg (char_ne_of_toNat_ne (show c.toNat ≠ ('[' : Char).toNat by rw [show ('[' : Char).toNat = 91 from rfl]; omega)),
    if_neg (char_ne_of_toNat_ne (show c.toNat ≠ lbrace.toNat by rw [show lbrace.toNat = 123 from rfl]; omega)),
    if_neg (char_ne_of_toNat_ne (show c.toNat ≠ ('n' : Char).toNat by rw [show ('n' : Char).toNat = 110 from rfl]; omega)),
    if_neg (char_ne_of_toNat_ne (show c.toNat ≠ ('t' : Char).toNat by rw [show ('t' : Char).toNat = 116 from rfl]; omega)),
    if_neg (char_ne_of_toNat_ne (show c.toNat ≠ ('f' : Char).toNat by rw [show ('f' : Char).toNat = 102 from rfl]; omega)),
    if_pos (Or.inr (show isDigitChar c = true by
      simp only [isDigitChar, Bool.and_eq_true, decide_eq_true_eq]; omega))]

/-- Array dispatch on a first element. -/
theorem par_step_elem (f : Nat) (c : Char) (X : List Char) (hws : isWsChar c = false)
    (hc : ¬ c = ']') :
    parseArrayRest (f + 1) (c :: X)
      = (match parseValue f (c :: X) with
         | none => none
         | some (v, r) =>
           match parseElemsMore f r with
           | none => none
           | some (vs, r2) => some (Json.arr (v :: vs), r2)) := by
  simp only [parseArrayRest, skipWs_cons X hws, if_neg hc]

/-- Element-list dispatch on a comma. -/
theorem pem_step_comma (f : Nat) (X : List Char) :
    parseElemsMore (f + 1) (',' :: X)
      = (match parseValue f X with
         | none => none
         | some (v, r) =>
           match parseElemsMore f r with
           | none => none
           | some (vs, r2) => some (v :: vs, r2)) := rfl

/-- Object dispatch on a first key. -/
theorem por_step_key (f : Nat) (X : List Char) :
    parseObjectRest (f + 1) (quoteC :: X)
      = (match parseStringBody (f + 1) X with
         | none => none
         | some (k, r1) =>
           match skipWs r1 with
           | [] => none
           | c2 :: r2 =>
             if c2 = ':' then
               match parseValue f r2 with
               | none => none
               | some (v, r3) =>
                 match parseMembersMore f r3 with
                 | none => none
                 | some (ms2, r4) => some (Json.obj ((k, v) :: ms2), r4)
             else none) := rfl

/-- Member-list dispatch on a comma followed by a key. -/
theorem pmm_step_comma (f : Nat) (X : List Char) :
    parseMembersMore (f + 1) (',' :: (quoteC :: X))
      = (match parseStringBody (f + 1) X with
         | none => none
         | some (k, r2) =>
           match skipWs r2 with
           | [] => none
           | c3 :: r3 =>
             if c3 = ':' then
               match parseValue f r3 with
               | none => none
               | some (v, r4) =>
                 match parseMembersMore f r4 with
                 | none => none
                 | some (ms, r5) => some ((k, v) :: ms, r5)
             else none) := rfl

/-- The element parser undoes `serElemsTail` up to the closing bracket. -/
theorem parseElemsMore_ser (xs : List Json)
    (hIH : ∀ x ∈ xs, ∀ fuel rest, jsize x ≤ fuel → delimOk rest = true →
      parseValue fuel (serJson x ++ rest) = some (x, rest)) :
    ∀ fuel rest, 1 + jsizeElems xs ≤ fuel →
      parseElemsMore fuel (serElemsTail xs ++ (']' :: rest)) = some (xs, rest) := by
  induction xs with
  | nil =>
    intro fuel rest hf
    obtain ⟨f, rfl⟩ : ∃ f, fuel = f + 1 := ⟨fuel - 1, by omega⟩
    rfl
  | cons y ys ih =>
    intro fuel rest hf
    simp only [jsizeElems] at hf
    obtain ⟨f, rfl⟩ : ∃ f, fuel = f + 1 := ⟨fuel - 1, by omega⟩
    have hsplit : serElemsTail (y :: ys) ++ (']' :: rest)
        = ',' :: (serJson y ++ (serElemsTail ys ++ (']' :: rest))) := by
      simp [serElemsTail, List.append_assoc]
    rw [hsplit, pem_step_comma]
    have h1 := hIH y (by simp) f _ (by omega) (delimOk_ser_tail_arr ys rest)
    have h2 := ih (fun z hz => hIH z (by simp [hz])) f rest (by omega)
    simp only [h1, h2]

/-- The member parser undoes `serMembersTail` up to the closing brace. -/
theorem parseMembersMore_ser (ms : List (List Char × Json))
    (hIH : ∀ p ∈ ms, ∀ fuel rest, jsize p.2 ≤ fuel → delimOk rest = true →
      parseValue fuel (serJson p.2 ++ rest) = some (p.2, rest)) :
    ∀ fuel rest, 1 + jsizeMembers ms ≤ fuel →
      parseMembersMore fuel (serMembersTail ms ++ (rbrace :: rest)) = some (ms, rest) := by
  induction ms with
  | nil =>
    intro fuel rest hf
    obtain ⟨f, rfl⟩ : ∃ f, fuel = f + 1 := ⟨fuel - 1, by omega⟩
    rfl
  | cons m ns ih =>
    obtain ⟨k, v⟩ := m
    intro fuel rest hf
    simp only [jsizeMembers] at hf
    obtain ⟨f, rfl⟩ : ∃ f, fuel = f + 1 := ⟨fuel - 1, by omega⟩
    have hsplit : serMembersTail ((k, v) :: ns) ++ (rbrace :: rest)
        = ',' :: (quoteC :: (escString k ++ (quoteC :: (':' :: (serJson v
            ++ (serMembersTail ns ++ (rbrace :: rest))))))) := by
      simp [serMembersTail, serMember, List.append_assoc]
    rw [hsplit, pmm_step_comma]
    have hkey := parseStringBody_esc k (f + 1)
      (':' :: (serJson v ++ (serMembersTail ns ++ (rbrace :: rest)))) (by simp at hf ⊢; omega)
    have hv := hIH (k, v) (by simp) f _ (show jsize v ≤ f by omega) (delimOk_ser_tail_obj ns rest)
    have hns := ih (fun z hz => hIH z (by simp [hz])) f rest (by omega)
    simp +decide only [hkey, hv, hns, skipWs, isWsChar, if_true, if_false]

/-- The value parser undoes the serializer: parsing `serJson v` before any
suffix that cannot extend a number returns exactly `v`, for any fuel of at
least `jsize v`. -/
theorem parseValue_ser : ∀ v : Json, ∀ fuel rest, jsize v ≤ fuel → delimOk rest = true →
    parseValue fuel (serJson v ++ rest) = some (v, rest) := by
  intro v
  induction v using Json.myInd with
  | hnull =>
    intro fuel rest hf hr
    obtain ⟨f, rfl⟩ : ∃ f, fuel = f + 1 := ⟨fuel - 1, by simp [jsize] at hf; omega⟩
    rfl
  | hbool b =>
    intro fuel rest hf hr
    obtain ⟨f, rfl⟩ : ∃ f, fuel = f + 1 := ⟨fuel - 1, by simp [jsize] at hf; omega⟩
    cases b <;> rfl
  | hnum i =>
    intro fuel rest hf hr
    obtain ⟨f, rfl⟩ : ∃ f, fuel = f + 1 := ⟨fuel - 1, by simp [jsize] at hf; omega⟩
    by_cases hi : i < 0
    · have hp := parseNumber_serInt i rest hr
      rw [show serInt i = '-' :: printNat (-i).toNat from by simp [serInt, hi]] at hp
      simp only [List.cons_append] at hp
      have hs : serJson (Json.num i) ++ rest = '-' :: (printNat (-i).toNat ++ rest) := by
        simp [serJson, serInt, hi]
      rw [hs, pv_step_minus, hp]
    · obtain ⟨d, ds, hd10, hprint⟩ := printNat_decomp i.toNat
      have hser : serInt i = digitChar d :: List.map digitChar ds := by
        rw [show serInt i = printNat i.toNat from by simp [serInt, hi], hprint]
      have hp := parseNumber_serInt i rest hr
      rw [hser] at hp
      simp only [List.cons_append] at hp
      have hs : serJson (Json.num i) ++ rest
          = digitChar d :: (List.map digitChar ds ++ rest) := by
        rw [show serJson (Json.num i) = serInt i from rfl, hser]
        simp
      rw [hs, pv_step_num f (digitChar d) _ (by rw [digitChar_toNat hd10]; omega)
        (by rw [digitChar_toNat hd10]; omega), hp]
  | hstr s =>
    intro fuel rest hf hr
    obtain ⟨f, rfl⟩ : ∃ f, fuel = f + 1 := ⟨fuel - 1, by simp [jsize] at hf; omega⟩
    have hs : serJson (Json.str s) ++ rest = quoteC :: (escString s ++ (quoteC :: rest)) := by
      simp [serJson, List.append_assoc]
    rw [hs, pv_step_quote,
      parseStringBody_esc s (f + 1) rest (by simp [jsize] at hf; omega)]
    rfl
  | harr xs hIH =>
    intro fuel rest hf hr
    cases xs with
    | nil =>
      simp only [jsize, jsizeElems] at hf
      obtain ⟨f, rfl⟩ : ∃ f, fuel = f + 1 := ⟨fuel - 1, by omega⟩
      obtain ⟨g, rfl⟩ : ∃ g, f = g + 1 := ⟨f - 1, by omega⟩
      rfl
    | cons x xs2 =>
      simp only [jsize, jsizeElems] at hf
      obtain ⟨f, rfl⟩ : ∃ f, fuel = f + 1 := ⟨fuel - 1, by omega⟩
      obtain ⟨g, rfl⟩ : ∃ g, f = g + 1 := ⟨f - 1, by omega⟩
      obtain ⟨c, t, hct, hws, hne⟩ := serJson_head x
      have hs : serJson (Json.arr (x :: xs2)) ++ rest
          = '[' :: (serJson x ++ (serElemsTail xs2 ++ (']' :: rest))) := by
        simp [serJson, List.append_assoc]
      rw [hs, pv_step_lbrack, hct, List.cons_append,
        par_step_elem g c (t ++ (serElemsTail xs2 ++ (']' :: rest))) hws hne,
        ← List.cons_append, ← hct]
      have hx := hIH x (by simp) g _ (by omega) (delimOk_ser_tail_arr xs2 rest)
      have hmore := parseElemsMore_ser xs2 (fun z hz => hIH z (by simp [hz])) g rest (by omega)
      simp only [hx, hmore]
  | hobj fs hIH =>
    intro fuel rest hf hr
    cases fs with
    | nil =>
      simp only [jsize, jsizeMembers] at hf
      obtain ⟨f, rfl⟩ : ∃ f, fuel = f + 1 := ⟨fuel - 1, by omega⟩
      obtain ⟨g, rfl⟩ : ∃ g, f = g + 1 := ⟨f - 1, by omega⟩
      rfl
    | cons m ms =>
      obtain ⟨k, v⟩ := m
      simp only [jsize, jsizeMembers] at hf
      obtain ⟨f, rfl⟩ : ∃ f, fuel = f + 1 := ⟨fuel - 1, by omega⟩
      obtain ⟨g, rfl⟩ : ∃ g, f = g + 1 := ⟨f - 1, by omega⟩
      have hs : serJson (Json.obj ((k, v) :: ms)) ++ rest
          = lbrace :: (quoteC :: (escString k ++ (quoteC :: (':' :: (serJson v
              ++ (serMembersTail ms ++ (rbrace :: rest))))))) := by
        simp [serJson, serMember, List.append_assoc]
      rw [hs, pv_step_lbrace, por_step_key]
      have hkey := parseStringBody_esc k (g + 1)
        (':' :: (serJson v ++ (serMembersTail ms ++ (rbrace :: rest)))) (by omega)
      have hv := hIH (k, v) (by simp) g _ (show jsize v ≤ g by omega) (delimOk_ser_tail_obj ms rest)
      have hms := parseMembersMore_ser ms (fun z hz => hIH z (by simp [hz])) g rest (by omega)
      simp +decide only [hkey, hv, hms, skipWs, isWsChar, if_true, if_false]

set_option maxHeartbeats 1000000 in
/-- Escaping a character emits at least one character. -/
theorem escChar_length_pos (c : Char) : 1 ≤ (escChar c).length := by
  unfold escChar
  split_ifs <;> simp only [List.length_cons, List.length_singleton, List.length_nil] <;> omega

/-- Escaping a string does not shorten it. -/
theorem escString_length_ge (s : List Char) : s.length ≤ (escString s).length := by
  induction s with
  | nil => simp [escString]
  | cons c cs ih =>
    have := escChar_length_pos c
    simp only [escString, List.length_append, List.length_cons]
    omega

/-- A serialized integer is nonempty. -/
theorem serInt_length_pos (i : Int) : 1 ≤ (serInt i).length := by
  by_cases hi : i < 0
  · simp [serInt, hi]
  · have : natDigits i.toNat i.toNat ≠ [] := natDigits_ne_nil _ _
    simp only [serInt, if_neg hi, printNat, List.length_map]
    exact List.length_pos.mpr this

/-- Element fuel is bounded by twice the serialized tail length. -/
theorem jsizeElems_le (xs : List Json) (h : ∀ x ∈ xs, jsize x ≤ 2 * (serJson x).length) :
    jsizeElems xs ≤ 2 * (serElemsTail xs).length := by
  induction xs with
  | nil => simp [jsizeElems, serElemsTail]
  | cons x xs2 ih =>
    have hx := h x (by simp)
    have ht := ih (fun z hz => h z (by simp [hz]))
    simp only [jsizeElems, serElemsTail, List.length_cons, List.length_append]
    omega

/-- Member fuel is bounded by twice the serialized tail length. -/
theorem jsizeMembers_le (ms : List (List Char × Json))
    (h : ∀ p ∈ ms, jsize p.2 ≤ 2 * (serJson p.2).length) :
    jsizeMembers ms ≤ 2 * (serMembersTail ms).length := by
  induction ms with
  | nil => simp [jsizeMembers, serMembersTail]
  | cons m ns ih =>
    obtain ⟨k, v⟩ := m
    have hv := h (k, v) (by simp)
    have ht := ih (fun z hz => h z (by simp [hz]))
    have hk := escString_length_ge k
    simp only [jsizeMembers, serMembersTail, serMember, List.length_cons, List.length_append]
    simp only at hv
    omega

/-- The parser fuel needed for a value is within twice its serialized
length. -/
theorem jsize_le_two_len : ∀ v : Json, jsize v ≤ 2 * (serJson v).length := by
  intro v
  induction v using Json.myInd with
  | hnull => simp [jsize, serJson]
  | hbool b => cases b <;> simp [jsize, serJson]
  | hnum i =>
    have h1 := serInt_length_pos i
    have : serJson (Json.num i) = serInt i := rfl
    rw [this]
    simp only [jsize]
    omega
  | hstr s =>
    have := escString_length_ge s
    simp only [jsize, serJson, List.length_cons, List.length_append, List.length_singleton]
    omega
  | harr xs ih =>
    cases xs with
    | nil => simp [jsize, jsizeElems, serJson]
    | cons x xs2 =>
      have hx := ih x (by simp)
      have ht := jsizeElems_le xs2 (fun z hz => ih z (by simp [hz]))
      simp only [jsize, jsizeElems, serJson, List.length_cons, List.length_append,
        List.length_singleton]
      omega
  | hobj fs ih =>
    cases fs with
    | nil => simp [jsize, jsizeMembers, serJson]
    | cons m ms =>
      obtain ⟨k, v⟩ := m
      have hv := ih (k, v) (by simp)
      have ht := jsizeMembers_le ms (fun z hz => ih z (by simp [hz]))
      have hk := escString_length_ge k
      simp only [jsize, jsizeMembers, serJson, serMember, List.length_cons,
        List.length_append, List.length_singleton]
      simp only at hv
      omega

/-- `jsonUnmarshal` undoes `serJson` before any whitespace-only tail. -/
theorem jsonUnmarshal_ser_append (v : Json) (tail : List Char) (h1 : delimOk tail = true)
    (h2 : skipWs tail = []) : jsonUnmarshal (serJson v ++ tail) = some v := by
  have hpv := parseValue_ser v (2 * ((serJson v).length + tail.length) + 4) tail
    (by have := jsize_le_two_len v; omega) h1
  simp [jsonUnmarshal, hpv, h2]

/-- `jsonUnmarshal` undoes `serJson`. -/
theorem jsonUnmarshal_ser (v : Json) : jsonUnmarshal (serJson v) = some v := by
  have := jsonUnmarshal_ser_append v [] rfl rfl
  simpa using this

/-- Looking a key up right after assigning it returns the assigned value. -/
theorem lookupKey_insert_self (l : List (List Char × PluginData)) (k : List Char)
    (v : PluginData) : lookupKey (insertResult l k v) k = some v := by
  induction l with
  | nil => simp [insertResult, lookupKey, List.find?]
  | cons p rest ih =>
    obtain ⟨k0, v0⟩ := p
    by_cases h : k0 = k
    · simp [insertResult, h, lookupKey, List.find?]
    · simp only [insertResult, if_neg h]
      simp only [lookupKey, List.find?] at ih ⊢
      simp [h, ih]

/-- Assigning one key sets its entry count to exactly one when it was at
most one, and leaves every other key's count unchanged. -/
theorem countKey_insert (l : List (List Char × PluginData)) (k : List Char)
    (v : PluginData) (k' : List Char) :
    countKey (insertResult l k v) k'
      = if k' = k then max (countKey l k) 1 else countKey l k' := by
  induction l with
  | nil =>
    by_cases h : k' = k
    · subst h; simp [insertResult, countKey]
    · simp [insertResult, countKey, List.countP_cons, h,
        show ¬ (k = k') from fun hh => h hh.symm]
  | cons p rest ih =>
    obtain ⟨k0, v0⟩ := p
    by_cases h0 : k0 = k
    · subst h0
      simp only [insertResult, if_pos rfl]
      by_cases h : k' = k0
      · subst h
        simp [countKey, List.countP_cons]
      · simp [countKey, List.countP_cons, h, show ¬ (k0 = k') from fun hh => h hh.symm]
    · simp only [insertResult, if_neg h0, countKey, List.countP_cons]
      simp only [countKey] at ih
      rw [ih]
      by_cases h : k' = k
      · subst h
        simp [show ¬ (k0 = k') from h0]
      · simp [h]

/-- The number of entries grows exactly on fresh keys. -/
theorem length_insert (l : List (List Char × PluginData)) (k : List Char) (v : PluginData) :
    (insertResult l k v).length
      = if countKey l k = 0 then l.length + 1 else l.length := by
  induction l with
  | nil => simp [insertResult, countKey]
  | cons p rest ih =>
    obtain ⟨k0, v0⟩ := p
    by_cases h0 : k0 = k
    · subst h0
      simp [insertResult, countKey, List.countP_cons]
    · simp only [insertResult, if_neg h0, List.length_cons, countKey, List.countP_cons]
      simp only [countKey] at ih
      rw [ih]
      have hne : ¬ (k0 = k) := h0
      by_cases hc : List.countP (fun p => decide (p.1 = k)) rest = 0 <;> simp [hc, hne]

/-- Merging envelopes into a well-formed map yields exactly one entry per
merged name and leaves other keys untouched. -/
theorem countKey_fold (envs : List PluginData) :
    ∀ init : List (List Char × PluginData), (∀ nmx, countKey init nmx ≤ 1) →
    ∀ nm, countKey (envs.foldl (fun acc pd => insertResult acc pd.name pd) init) nm
      = if ∃ e ∈ envs, e.name = nm then 1 else countKey init nm := by
  induction envs with
  | nil =>
    intro init hwf nm
    simp
  | cons e es ih =>
    intro init hwf nm
    simp only [List.foldl_cons]
    have hwf2 : ∀ nmx, countKey (insertResult init e.name e) nmx ≤ 1 := by
      intro nmx
      rw [countKey_insert]
      split
      · have := hwf e.name
        omega
      · exact hwf nmx
    rw [ih (insertResult init e.name e) hwf2 nm]
    by_cases hin : ∃ z ∈ es, z.name = nm
    · have hex : ∃ z ∈ e :: es, z.name = nm := by
        obtain ⟨z, hz, h⟩ := hin
        exact ⟨z, by simp [hz], h⟩
      rw [if_pos hin, if_pos hex]
    · rw [if_neg hin, countKey_insert]
      by_cases hnm : nm = e.name
      · have hex : ∃ z ∈ e :: es, z.name = nm := ⟨e, by simp, hnm.symm⟩
        rw [if_pos hnm, if_pos hex]
        have := hwf e.name
        omega
      · have hnex : ¬ ∃ z ∈ e :: es, z.name = nm := by
          rintro ⟨z, hz, hzn⟩
          rcases List.mem_cons.mp hz with h | h
          · exact hnm (by rw [← hzn, h])
          · exact hin ⟨z, h, hzn⟩
        rw [if_neg hnm, if_neg hnex]

/-- Merging envelopes with pairwise distinct names into a fresh well-formed
map adds exactly one entry per envelope. -/
theorem length_fold_nodup (envs : List PluginData) :
    ∀ init : List (List Char × PluginData), (∀ nmx, countKey init nmx ≤ 1) →
    (envs.map PluginData.name).Nodup → (∀ e ∈ envs, countKey init e.name = 0) →
    (envs.foldl (fun acc pd => insertResult acc pd.name pd) init).length
      = init.length + envs.length := by
  induction envs with
  | nil => simp
  | cons e es ih =>
    intro init hwf hnd hfresh
    simp only [List.foldl_cons]
    have hwf2 : ∀ nmx, countKey (insertResult init e.name e) nmx ≤ 1 := by
      intro nmx
      rw [countKey_insert]
      split
      · have := hwf e.name
        omega
      · exact hwf nmx
    have hnd2 := hnd
    simp only [List.map_cons, List.nodup_cons] at hnd2
    have hfresh2 : ∀ z ∈ es, countKey (insertResult init e.name e) z.name = 0 := by
      intro z hz
      rw [countKey_insert]
      have hzne : ¬ (z.name = e.name) := by
        intro heq
        exact hnd2.1 (heq ▸ List.mem_map_of_mem PluginData.name hz)
      rw [if_neg hzne]
      exact hfresh z (by simp [hz])
    rw [ih (insertResult init e.name e) hwf2 hnd2.2 hfresh2,
      length_insert, if_pos (hfresh e (by simp))]
    simp only [List.length_cons]
    omega

/-- The empty aggregate is well formed. -/
theorem countKey_nil (nm : List Char) : countKey [] nm = 0 := rfl

/-- Entry counts of the aggregate `executePlugins` builds: exactly one entry
per validated name, none otherwise. -/
theorem executePlugins_countKey (outcomes : List Outcome) (nm : List Char) :
    countKey (executePlugins outcomes) nm
      = if ∃ pd ∈ outcomes.filterMap validateOutcome, pd.name = nm then 1 else 0 := by
  have h := countKey_fold (outcomes.filterMap validateOutcome) []
    (by intro nmx; simp [countKey]) nm
  simpa [executePlugins, countKey] using h

/-- With pairwise distinct validated names the aggregate has exactly one
entry per envelope. -/
theorem executePlugins_length (outcomes : List Outcome)
    (hnd : ((outcomes.filterMap validateOutcome).map PluginData.name).Nodup) :
    (executePlugins outcomes).length = (outcomes.filterMap validateOutcome).length := by
  have h := length_fold_nodup (outcomes.filterMap validateOutcome) []
    (by intro nmx; simp [countKey]) hnd (by intro e he; rfl)
  simpa [executePlugins] using h

/-- The envelope validated last is the one the aggregate holds under its
name. -/
theorem executePlugins_last (pre : List Outcome) (o : Outcome) (pd : PluginData)
    (h : validateOutcome o = some pd) :
    lookupKey (executePlugins (pre ++ [o])) pd.name = some pd := by
  have hfm : (pre ++ [o]).filterMap validateOutcome
      = pre.filterMap validateOutcome ++ [pd] := by
    rw [List.filterMap_append]
    simp [List.filterMap, h]
  simp only [executePlugins, hfm, List.foldl_append, List.foldl_cons, List.foldl_nil]
  exact lookupKey_insert_self _ pd.name pd

/-- Outcomes that fail validation contribute nothing to the aggregate. -/
theorem executePlugins_skip (pre post : List Outcome) (o : Outcome)
    (h : validateOutcome o = none) :
    executePlugins (pre ++ o :: post) = executePlugins (pre ++ post) := by
  simp [executePlugins, List.filterMap_append, List.filterMap_cons, h]

/-- `formatOutput` cannot fail on any aggregate and configuration: the
marshal error paths of the source are unreachable for trees produced by
`json.Unmarshal`. -/
theorem formatOutput_ok (results : List (List Char × PluginData)) (cfg : config)
    (env : Env) : ∃ s, formatOutput results cfg env = Except.ok s := by
  have h : ∀ bytes : List Char,
      (if bytes ≠ [] ∧ bytes.getLast? ≠ some '\n' then Except.ok (ε := String) (bytes ++ ['\n'])
       else Except.ok bytes)
        = Except.ok (if bytes ≠ [] ∧ bytes.getLast? ≠ some '\n' then bytes ++ ['\n'] else bytes) := by
    intro bytes
    split <;> rfl
  unfold formatOutput
  dsimp only
  exact ⟨_, h _⟩

/-- Rendering a nonnegative in-range integer and parsing it back with the
`strconv.Atoi` model is the identity. -/
theorem goAtoi_goItoa (n : Int) (h0 : 0 ≤ n) (h1 : n < 9223372036854775808) :
    goAtoi (goItoa n) = some n := by
  have hs : (goItoa n).data = printNat n.toNat := by
    rw [goItoa, if_neg (not_lt.mpr h0)]
    rfl
  obtain ⟨d, ds, hd10, hprint⟩ := printNat_decomp n.toNat
  have hall : ∀ c ∈ printNat n.toNat, isDigitChar c = true := printNat_digits n.toNat
  rw [hprint] at hall
  have hfold : foldDigits (digitChar d :: List.map digitChar ds) = n.toNat := by
    rw [← hprint]
    exact foldDigits_printNat n.toNat
  unfold goAtoi
  rw [hs, hprint]
  dsimp only
  rw [if_neg (digitChar_ne hd10 '-' (by left; decide)),
    if_neg (digitChar_ne hd10 '+' (by left; decide))]
  dsimp only
  rw [if_neg (by simp), if_pos (by
    rw [List.all_eq_true]
    intro c hc
    exact hall c hc), hfold]
  rw [if_neg (by
    rintro (hlt | hge)
    · omega
    · rw [Int.toNat_of_nonneg h0] at hge
      omega)]
  rw [Int.toNat_of_nonneg h0]
  simp

/-- Membership in a conditional singleton segment. -/
theorem mem_ite_singleton {α : Type} (c : Prop) [Decidable c] (a x : α) :
    (x ∈ if c then [a] else []) ↔ c ∧ x = a := by
  split
  · simp_all
  · simp_all

/-- Membership in a conditional two-element segment. -/
theorem mem_ite_pair {α : Type} (c : Prop) [Decidable c] (a b x : α) :
    (x ∈ if c then [a, b] else []) ↔ c ∧ (x = a ∨ x = b) := by
  split
  · simp_all
  · simp_all

/-- A nonnegative rendered integer is a nonempty string. -/
theorem goItoa_ne_empty (n : Int) (h0 : 0 ≤ n) : goItoa n ≠ "" := by
  intro h
  have hd := congrArg String.data h
  rw [show (goItoa n).data = printNat n.toNat from by rw [goItoa, if_neg (not_lt.mpr h0)]; rfl]
    at hd
  obtain ⟨d, ds, _, hprint⟩ := printNat_decomp n.toNat
  rw [hprint] at hd
  exact List.noConfusion hd

/-- An entry of the inherited part never carries a managed key. -/
theorem inherited_no_managed (cfg : config) (ambient : List String) (env : Env)
    (absf : String → Option String) (k v : String)
    (hk : k ∈ managedKeys cfg ambient env absf) :
    (k, v) ∉ inheritedEnv cfg ambient env absf := by
  intro hmem
  have h2 := (List.mem_filter.mp hmem).2
  simp only [decide_eq_true_eq] at h2
  exact h2 (List.elem_iff.mpr hk)

/-- An entry of the inherited part never carries a key absent from the
parent environment. -/
theorem inherited_sub_env (cfg : config) (ambient : List String) (env : Env)
    (absf : String → Option String) (p : String × String)
    (hp : p ∈ inheritedEnv cfg ambient env absf) : p ∈ env :=
  (List.mem_filter.mp hp).1

/-- The always-managed keys are managed under every configuration. -/
theorem managed_always (cfg : config) (ambient : List String) (env : Env)
    (absf : String → Option String) :
    ctxSessionEnvKey ∈ managedKeys cfg ambient env absf
      ∧ ctxShlvlEnvKey ∈ managedKeys cfg ambient env absf
      ∧ "SHLVL" ∈ managedKeys cfg ambient env absf
      ∧ ∀ k ∈ ambient, k ∈ managedKeys cfg ambient env absf := by
  refine ⟨by simp [managedKeys], by simp [managedKeys], by simp [managedKeys], ?_⟩
  intro k hk
  simp [managedKeys, hk]

/-- When no directory can be listed the scan finds nothing. -/
theorem findPluginsScan_none (absf : String → Option String) (selfPath : String)
    (isWindows : Bool) (readDir : String → Option (List DirEntry))
    (h : ∀ d, readDir d = none) :
    ∀ paths checked, findPluginsScan absf readDir selfPath isWindows paths checked = [] := by
  intro paths
  induction paths with
  | nil => intro checked; rfl
  | cons path rest ih =>
    intro checked
    simp only [findPluginsScan]
    by_cases hp : path = ""
    · simp [hp, ih]
    · rw [if_neg hp]
      cases habs : absf path with
      | none => exact ih checked
      | some absPath =>
        dsimp only
        by_cases hchk : checked.contains absPath = true
        · rw [if_pos hchk]
          exact ih _
        · rw [if_neg hchk, h absPath]
          exact ih _

/-- C5: `findPlugins` fails exactly when the `PATH` variable is absent or
empty; with a nonempty `PATH` it succeeds whatever the filesystem looks
like — unresolvable or unreadable directories are skipped — and finding no
candidate executables yields a successful empty list, not an error. -/
theorem claim5_findPlugins_error_iff (env : Env) (absf : String → Option String)
    (readDir : String → Option (List DirEntry)) (selfPath : String) (isWindows : Bool) :
    ((∃ e, findPlugins env absf readDir selfPath isWindows = Except.error e)
      ↔ getenv env "PATH" = "")
    ∧ (getenv env "PATH" ≠ "" →
        ∃ l, findPlugins env absf readDir selfPath isWindows = Except.ok l)
    ∧ (getenv env "PATH" ≠ "" → (∀ d, readDir d = none) →
        findPlugins env absf readDir selfPath isWindows = Except.ok []) := by
  by_cases hp : getenv env "PATH" = ""
  · refine ⟨⟨fun _ => hp,
      fun _ => ⟨"PATH environment variable is not set", by simp [findPlugins, hp]⟩⟩,
      fun h => absurd hp h, fun h => absurd hp h⟩
  · have hok : findPlugins env absf readDir selfPath isWindows
        = Except.ok (findPluginsScan absf readDir selfPath isWindows
            (splitList (getenv env "PATH")) []) := by
      simp [findPlugins, hp]
    refine ⟨⟨fun ⟨e, he⟩ => ?_, fun h => absurd h hp⟩, fun _ => ⟨_, hok⟩, fun _ hnone => ?_⟩
    · rw [hok] at he
      exact Except.noConfusion he
    · rw [hok, findPluginsScan_none absf selfPath isWindows readDir hnone]

/-- C5 witness: a run with `PATH=/bin` where no directory is readable
discovers nothing and still succeeds. -/
theorem claim5_witness :
    findPlugins [("PATH", "/bin")] (fun s => some s) (fun _ => none) "/self" false
      = Except.ok [] :=
  (claim5_findPlugins_error_iff [("PATH", "/bin")] (fun s => some s) (fun _ => none)
    "/self" false).2.2 (by decide) (fun _ => rfl)

/-- C6: a failed outcome, an unparsable output or an envelope missing
`name`, `version` or `data` contributes nothing to the aggregate, and a run
whose outcomes all fail validation still produces an empty aggregate and a
successfully formatted output in the requested format. -/
theorem claim6_invalid_isolated (cfg : config) (env : Env) :
    (∀ out acc, parseEnvelope out = some acc →
        (acc.name = [] ∨ acc.version = [] ∨ acc.data = none) →
        validateOutcome (Outcome.success out) = none)
    ∧ (∀ pre post o, validateOutcome o = none →
        executePlugins (pre ++ o :: post) = executePlugins (pre ++ post))
    ∧ (∀ outcomes : List Outcome, (∀ o ∈ outcomes, validateOutcome o = none) →
        executePlugins outcomes = [] ∧ ∃ s, formatOutput [] cfg env = Except.ok s) := by
  refine ⟨?_, ?_, ?_⟩
  · intro out acc hp hmiss
    simp only [validateOutcome, hp]
    cases hd : acc.data with
    | none => rfl
    | some d =>
      rcases hmiss with h | h | h
      · simp [h]
      · simp [h]
      · rw [hd] at h
        exact Option.noConfusion h
  · intro pre post o h
    exact executePlugins_skip pre post o h
  · intro outcomes hall
    refine ⟨?_, formatOutput_ok [] cfg env⟩
    unfold executePlugins
    rw [List.filterMap_eq_nil_iff.mpr hall]
    rfl

/-- C6 witness: a single failed candidate yields the empty aggregate and a
formatted empty output. -/
theorem claim6_witness :
    executePlugins [Outcome.failure] = []
      ∧ ∃ s, formatOutput [] ({} : config) [] = Except.ok s :=
  (claim6_invalid_isolated {} []).2.2 [Outcome.failure]
    (by intro o ho; simp at ho; rw [ho]; rfl)

/-- C7: the aggregate holds exactly one entry for every name reported by a
validated envelope — so N pairwise distinct names give exactly N entries,
and a duplicated name still gives exactly one entry — independently of the
completion order of the outcomes. -/
theorem claim7_aggregate_names (outcomes : List Outcome) :
    (∀ nm, countKey (executePlugins outcomes) nm
        = if ∃ pd ∈ outcomes.filterMap validateOutcome, pd.name = nm then 1 else 0)
    ∧ (((outcomes.filterMap validateOutcome).map PluginData.name).Nodup →
        (executePlugins outcomes).length = (outcomes.filterMap validateOutcome).length)
    ∧ (∀ outcomes2, outcomes.Perm outcomes2 →
        ∀ nm, countKey (executePlugins outcomes) nm
          = countKey (executePlugins outcomes2) nm) := by
  refine ⟨executePlugins_countKey outcomes, executePlugins_length outcomes, ?_⟩
  intro outcomes2 hperm nm
  rw [executePlugins_countKey, executePlugins_countKey]
  have hmem : (∃ pd ∈ outcomes.filterMap validateOutcome, pd.name = nm)
      ↔ ∃ pd ∈ outcomes2.filterMap validateOutcome, pd.name = nm := by
    constructor
    · rintro ⟨pd, hpd, h⟩
      exact ⟨pd, (hperm.filterMap validateOutcome).mem_iff.mp hpd, h⟩
    · rintro ⟨pd, hpd, h⟩
      exact ⟨pd, (hperm.filterMap validateOutcome).mem_iff.mpr hpd, h⟩
  rw [if_congr hmem rfl rfl]

/-- C7 witness: one validated envelope named `a` gives an aggregate with
exactly one entry under that name. -/
theorem claim7_witness :
    countKey (executePlugins [Outcome.success
        "\x7b\"name\":\"a\",\"version\":\"1\",\"data\":null\x7d".data]) ['a'] = 1
      ∧ (executePlugins [Outcome.success
          "\x7b\"name\":\"a\",\"version\":\"1\",\"data\":null\x7d".data]).length = 1 := by
  have h := claim7_aggregate_names [Outcome.success
    "\x7b\"name\":\"a\",\"version\":\"1\",\"data\":null\x7d".data]
  refine ⟨?_, ?_⟩
  · rw [h.1 ['a'], if_pos (by decide)]
  · rw [h.2.1 (by decide)]
    decide

/-- C9: validation checks only that `name` and `version` are nonempty
strings and that `data` is present — a `data` value of any JSON type,
including `null`, is accepted and merged into the aggregate under the
envelope's name. -/
theorem claim9_data_any_type (out : List Char) (acc : EnvelopeFields) (d : Json)
    (pre : List Outcome) (hp : parseEnvelope out = some acc) (hd : acc.data = some d)
    (hn : acc.name ≠ []) (hv : acc.version ≠ []) :
    validateOutcome (Outcome.success out) = some ⟨acc.name, acc.version, d⟩
      ∧ lookupKey (executePlugins (pre ++ [Outcome.success out])) acc.name
          = some ⟨acc.name, acc.version, d⟩ := by
  have hval : validateOutcome (Outcome.success out) = some ⟨acc.name, acc.version, d⟩ := by
    simp only [validateOutcome, hp, hd]
    rw [if_neg (by rintro (h | h); exact hn h; exact hv h)]
  exact ⟨hval, executePlugins_last pre (Outcome.success out) ⟨acc.name, acc.version, d⟩ hval⟩

/-- C9 witness: an envelope whose `data` is the JSON `null` is accepted and
aggregated. -/
theorem claim9_witness :
    validateOutcome (Outcome.success
        "\x7b\"name\":\"a\",\"version\":\"1\",\"data\":null\x7d".data)
      = some ⟨['a'], ['1'], Json.null⟩
    ∧ lookupKey (executePlugins ([] ++ [Outcome.success
        "\x7b\"name\":\"a\",\"version\":\"1\",\"data\":null\x7d".data])) ['a']
      = some ⟨['a'], ['1'], Json.null⟩ :=
  claim9_data_any_type "\x7b\"name\":\"a\",\"version\":\"1\",\"data\":null\x7d".data
    ⟨['a'], ['1'], some Json.null, false⟩ Json.null [] (by decide) rfl
    (by decide) (by decide)

/-- C10: with `maxParallel = 0` and at least one candidate the unbuffered
admission gate can never be acquired — the send in the main loop precedes
the spawn of the only goroutine that could pair with it — so the gate never
joins: the initial state is not done and admits no transition at all. -/
theorem claim10_gate_deadlock (n : Nat) (h : 0 < n) :
    ¬ gateDone (gateInit n) ∧ ∀ s, ¬ GateStep 0 (gateInit n) s := by
  constructor
  · rintro ⟨h0, -, -⟩
    simp [gateInit] at h0
    omega
  · rintro s hs
    cases hs with
    | sendBuffered hr hb => simp [gateInit] at hb
    | sendRendezvous hc hr hrel => simp [gateInit] at hrel
    | workDone hr => simp [gateInit] at hr
    | releaseBuffered hrel hb => simp [gateInit] at hrel

/-- C10 witness: one candidate under a zero-capacity gate is stuck from the
start. -/
theorem claim10_witness :
    ¬ gateDone (gateInit 1) ∧ ∀ s, ¬ GateStep 0 (gateInit 1) s :=
  claim10_gate_deadlock 1 (by decide)

/-- C1 counterexample: with every configuration value left at its zero
default, a stale `CTX_OUTPUT_TOKEN_BUDGET` from the parent environment is
passed through to the children, although the claim says managed keys are
never inherited even when unset by configuration. -/
theorem claim1_counterexample :
    ("CTX_OUTPUT_TOKEN_BUDGET", "999")
        ∈ getPluginEnv {} "s" ambientEnvKeysToPropagate
            [("CTX_OUTPUT_TOKEN_BUDGET", "999")] (fun _ => none) 0
      ∧ ({} : config).outputTokenBudget = 0 := by
  decide

/-- C1 (amended): every entry of the composed environment is either one the
composer sets itself, or is inherited from the parent environment with a
key that is not `CTX_SESSION`, `CTX_SHLVL`, `SHLVL` or an ambient tracing
key, and that differs from each configuration-dependent key whenever the
configuration actually sets that key — a conditionally managed key is
excluded from inheritance only when its configuration value is set. -/
theorem claim1_inherited_entries (cfg : config) (sid : String) (env : Env)
    (absf : String → Option String) (now : Int) (p : String × String)
    (hp : p ∈ getPluginEnv cfg sid ambientEnvKeysToPropagate env absf now) :
    p ∈ varsToSet cfg sid ambientEnvKeysToPropagate env absf now
      ∨ (p ∈ env ∧ p.1 ≠ ctxSessionEnvKey ∧ p.1 ≠ ctxShlvlEnvKey ∧ p.1 ≠ "SHLVL"
          ∧ p.1 ∉ ambientEnvKeysToPropagate
          ∧ (cacheDirToSet cfg env absf ≠ "" → p.1 ≠ "CTX_CACHE_DIR")
          ∧ (0 < cfg.outputTokenBudget → p.1 ≠ "CTX_OUTPUT_TOKEN_BUDGET")
          ∧ (0 < cfg.thinkingTokenBudget → p.1 ≠ "CTX_THINKING_TOKEN_BUDGET")
          ∧ (0 < cfg.costBudgetCents → p.1 ≠ "CTX_COST_BUDGET_CENTS")
          ∧ (cfg.allowedTools ≠ "" → p.1 ≠ "CTX_ALLOWED_TOOLS")
          ∧ (0 < cfg.pluginTimeout ∧ 0 < timeoutSeconds cfg →
              p.1 ≠ "CTX_TIMEOUT_SECONDS" ∧ p.1 ≠ "CTX_DEADLINE_TIMESTAMP")
          ∧ (0 < cfg.pluginRetries → p.1 ≠ "CTX_RETRY_MAX")
          ∧ (cfg.printSource = true → p.1 ≠ ctxShowSourceEnvKey)) := by
  rcases List.mem_append.mp hp with h | h
  · right
    have hnm : ∀ k ∈ managedKeys cfg ambientEnvKeysToPropagate env absf, p.1 ≠ k := by
      intro k hk heq
      have hmem : (p.1, p.2) ∈ inheritedEnv cfg ambientEnvKeysToPropagate env absf := h
      rw [heq] at hmem
      exact inherited_no_managed cfg _ env absf k p.2 hk hmem
    have hma := managed_always cfg ambientEnvKeysToPropagate env absf
    exact ⟨inherited_sub_env _ _ _ _ _ h,
      hnm _ hma.1, hnm _ hma.2.1, hnm _ hma.2.2.1,
      fun hmem => hnm _ (hma.2.2.2 _ hmem) rfl,
      fun hc => hnm _ (by simp [managedKeys, hc]),
      fun hc => hnm _ (by simp [managedKeys, hc]),
      fun hc => hnm _ (by simp [managedKeys, hc]),
      fun hc => hnm _ (by simp [managedKeys, hc]),
      fun hc => hnm _ (by simp [managedKeys, hc]),
      fun hc => ⟨hnm _ (by simp [managedKeys, hc]), hnm _ (by simp [managedKeys, hc])⟩,
      fun hc => hnm _ (by simp [managedKeys, hc]),
      fun hc => hnm _ (by simp [managedKeys, hc])⟩
  · left
    exact h

/-- C1 witness: a non-managed parent variable is inherited with all the
amended guarantees at a concrete input. -/
theorem claim1_witness :
    ("FOO", "1") ∈ varsToSet {} "s" ambientEnvKeysToPropagate [("FOO", "1")] (fun _ => none) 0
      ∨ (("FOO", "1") ∈ ([("FOO", "1")] : Env)
          ∧ ("FOO", "1").1 ≠ ctxSessionEnvKey ∧ ("FOO", "1").1 ≠ ctxShlvlEnvKey
          ∧ ("FOO", "1").1 ≠ "SHLVL"
          ∧ ("FOO", "1").1 ∉ ambientEnvKeysToPropagate
          ∧ (cacheDirToSet {} [("FOO", "1")] (fun _ => none) ≠ "" →
              ("FOO", "1").1 ≠ "CTX_CACHE_DIR")
          ∧ (0 < ({} : config).outputTokenBudget → ("FOO", "1").1 ≠ "CTX_OUTPUT_TOKEN_BUDGET")
          ∧ (0 < ({} : config).thinkingTokenBudget →
              ("FOO", "1").1 ≠ "CTX_THINKING_TOKEN_BUDGET")
          ∧ (0 < ({} : config).costBudgetCents → ("FOO", "1").1 ≠ "CTX_COST_BUDGET_CENTS")
          ∧ (({} : config).allowedTools ≠ "" → ("FOO", "1").1 ≠ "CTX_ALLOWED_TOOLS")
          ∧ (0 < ({} : config).pluginTimeout ∧ 0 < timeoutSeconds {} →
              ("FOO", "1").1 ≠ "CTX_TIMEOUT_SECONDS" ∧ ("FOO", "1").1 ≠ "CTX_DEADLINE_TIMESTAMP")
          ∧ (0 < ({} : config).pluginRetries → ("FOO", "1").1 ≠ "CTX_RETRY_MAX")
          ∧ (({} : config).printSource = true → ("FOO", "1").1 ≠ ctxShowSourceEnvKey)) :=
  claim1_inherited_entries {} "s" [("FOO", "1")] (fun _ => none) 0 ("FOO", "1") (by decide)

/-- C4: the composed environment binds `CTX_SHLVL` to exactly one plus the
current level and never passes through a raw `CTX_SHLVL` or `SHLVL`; the
current level is the value read from `CTX_SHLVL`, falling back to `SHLVL`
when `CTX_SHLVL` is empty, and zero when the effective string is absent or
does not parse as a nonnegative integer. -/
theorem claim4_shlvl (cfg : config) (sid : String) (env : Env)
    (absf : String → Option String) (now : Int) :
    (∀ x, ((ctxShlvlEnvKey, x) ∈ getPluginEnv cfg sid ambientEnvKeysToPropagate env absf now)
        ↔ x = goItoa (getCurrentShlvl env + 1))
    ∧ (∀ x, ("SHLVL", x) ∉ getPluginEnv cfg sid ambientEnvKeysToPropagate env absf now)
    ∧ (∀ n : Int, 0 ≤ n → n < 9223372036854775808 →
        getenv env ctxShlvlEnvKey = goItoa n → getCurrentShlvl env = n)
    ∧ (getenv env ctxShlvlEnvKey = "" →
        ∀ n : Int, 0 ≤ n → n < 9223372036854775808 →
          getenv env "SHLVL" = goItoa n → getCurrentShlvl env = n)
    ∧ (∀ s, getenv env ctxShlvlEnvKey = s → s ≠ "" → goAtoi s = none →
        getCurrentShlvl env = 0)
    ∧ (getenv env ctxShlvlEnvKey = "" → getenv env "SHLVL" = "" →
        getCurrentShlvl env = 0) := by
  have hma := managed_always cfg ambientEnvKeysToPropagate env absf
  refine ⟨?_, ?_, ?_, ?_, ?_, ?_⟩
  · intro x
    constructor
    · intro hx
      rcases List.mem_append.mp hx with h | h
      · exact absurd h (inherited_no_managed cfg _ env absf _ x hma.2.1)
      · simp +decide [varsToSet, List.mem_append, mem_ite_singleton, mem_ite_pair,
          List.mem_filterMap, ambientEnvKeysToPropagate] at h
        exact h
    · intro hx
      refine List.mem_append.mpr (Or.inr ?_)
      rw [hx]
      simp [varsToSet]
  · intro x hx
    rcases List.mem_append.mp hx with h | h
    · exact absurd h (inherited_no_managed cfg _ env absf _ x hma.2.2.1)
    · simp +decide [varsToSet, List.mem_append, mem_ite_singleton, mem_ite_pair,
        List.mem_filterMap, ambientEnvKeysToPropagate] at h
  · intro n h0 h1 hget
    simp only [getCurrentShlvl, hget, if_neg (goItoa_ne_empty n h0), goAtoi_goItoa n h0 h1]
    rw [if_neg (not_lt.mpr h0)]
  · intro hempty n h0 h1 hget
    simp only [getCurrentShlvl, hempty, hget, eq_self_iff_true, ite_true]
    rw [goAtoi_goItoa n h0 h1]
    exact if_neg (not_lt.mpr h0)
  · intro s hget hne hnone
    simp only [getCurrentShlvl, hget, if_neg hne, hnone]
  · intro h1 h2
    simp only [getCurrentShlvl, h1, if_pos rfl, h2]
    rfl

/-- C4 witness: a parent `CTX_SHLVL` of `3` yields a child `CTX_SHLVL` of
`4`, and neither the raw counter nor `SHLVL` is passed through. -/
theorem claim4_witness :
    getCurrentShlvl [("CTX_SHLVL", "3"), ("SHLVL", "9")] = 3
      ∧ ("CTX_SHLVL", "4") ∈ getPluginEnv {} "s" ambientEnvKeysToPropagate
          [("CTX_SHLVL", "3"), ("SHLVL", "9")] (fun _ => none) 0
      ∧ ("SHLVL", "9") ∉ getPluginEnv {} "s" ambientEnvKeysToPropagate
          [("CTX_SHLVL", "3"), ("SHLVL", "9")] (fun _ => none) 0 := by
  have h := claim4_shlvl {} "s" [("CTX_SHLVL", "3"), ("SHLVL", "9")] (fun _ => none) 0
  have h3 : getCurrentShlvl [("CTX_SHLVL", "3"), ("SHLVL", "9")] = 3 :=
    h.2.2.1 3 (by decide) (by decide) (by decide)
  refine ⟨h3, ?_, h.2.1 "9"⟩
  exact (h.1 "4").mpr (by rw [h3]; decide)

/-- C3 counterexample: a sub-second timeout of 500ms is configured (non-zero),
yet the composed environment carries neither `CTX_TIMEOUT_SECONDS` nor
`CTX_DEADLINE_TIMESTAMP`, because the source guards both on the whole-second
count `int(cfg.pluginTimeout.Seconds())` being positive, which truncates
500ms to zero — contradicting the claim that a non-zero timeout always sets
the deadline. -/
theorem claim3_counterexample :
    ({ pluginTimeout := 500000000 } : config).pluginTimeout ≠ 0
      ∧ (getPluginEnv { pluginTimeout := 500000000 } "s" ambientEnvKeysToPropagate []
            (fun _ => none) 0).filter
          (fun p => p.1 == "CTX_TIMEOUT_SECONDS" || p.1 == "CTX_DEADLINE_TIMESTAMP") = [] := by
  decide

/-- C3 (amended): provided the parent environment carries none of the
budget/timeout/retry keys itself, each of `CTX_OUTPUT_TOKEN_BUDGET`,
`CTX_THINKING_TOKEN_BUDGET`, `CTX_COST_BUDGET_CENTS` and `CTX_RETRY_MAX`
appears in the composed environment exactly when its configured value is
positive, carrying that value; `CTX_TIMEOUT_SECONDS` and
`CTX_DEADLINE_TIMESTAMP` appear exactly when the configured timeout is
positive AND amounts to at least one whole second, carrying the
whole-second count and the Unix timestamp of now-plus-timeout. -/
theorem claim3_budget_vars (cfg : config) (sid : String) (env : Env)
    (absf : String → Option String) (now : Int)
    (henv : ∀ p : String × String, p ∈ env →
      p.1 ≠ "CTX_OUTPUT_TOKEN_BUDGET" ∧ p.1 ≠ "CTX_THINKING_TOKEN_BUDGET"
        ∧ p.1 ≠ "CTX_COST_BUDGET_CENTS" ∧ p.1 ≠ "CTX_TIMEOUT_SECONDS"
        ∧ p.1 ≠ "CTX_DEADLINE_TIMESTAMP" ∧ p.1 ≠ "CTX_RETRY_MAX") :
    (∀ x, (("CTX_OUTPUT_TOKEN_BUDGET", x)
          ∈ getPluginEnv cfg sid ambientEnvKeysToPropagate env absf now)
        ↔ 0 < cfg.outputTokenBudget ∧ x = goItoa cfg.outputTokenBudget)
      ∧ (∀ x, (("CTX_THINKING_TOKEN_BUDGET", x)
            ∈ getPluginEnv cfg sid ambientEnvKeysToPropagate env absf now)
          ↔ 0 < cfg.thinkingTokenBudget ∧ x = goItoa cfg.thinkingTokenBudget)
      ∧ (∀ x, (("CTX_COST_BUDGET_CENTS", x)
            ∈ getPluginEnv cfg sid ambientEnvKeysToPropagate env absf now)
          ↔ 0 < cfg.costBudgetCents ∧ x = goItoa cfg.costBudgetCents)
      ∧ (∀ x, (("CTX_TIMEOUT_SECONDS", x)
            ∈ getPluginEnv cfg sid ambientEnvKeysToPropagate env absf now)
          ↔ (0 < cfg.pluginTimeout ∧ 0 < timeoutSeconds cfg)
              ∧ x = goItoa (timeoutSeconds cfg))
      ∧ (∀ x, (("CTX_DEADLINE_TIMESTAMP", x)
            ∈ getPluginEnv cfg sid ambientEnvKeysToPropagate env absf now)
          ↔ (0 < cfg.pluginTimeout ∧ 0 < timeoutSeconds cfg)
              ∧ x = goItoa (goUnix (now + cfg.pluginTimeout)))
      ∧ (∀ x, (("CTX_RETRY_MAX", x)
            ∈ getPluginEnv cfg sid ambientEnvKeysToPropagate env absf now)
          ↔ 0 < cfg.pluginRetries ∧ x = goItoa cfg.pluginRetries) := by
  have hred : ∀ (k : String) (x : String), (∀ p ∈ env, p.1 ≠ k) →
      (((k, x) ∈ getPluginEnv cfg sid ambientEnvKeysToPropagate env absf now) ↔
        (k, x) ∈ varsToSet cfg sid ambientEnvKeysToPropagate env absf now) := by
    intro k x hclean
    constructor
    · intro h
      rcases List.mem_append.mp h with h | h
      · exact absurd rfl (hclean _ (inherited_sub_env _ _ _ _ _ h))
      · exact h
    · intro h
      exact List.mem_append.mpr (Or.inr h)
  refine ⟨?_, ?_, ?_, ?_, ?_, ?_⟩ <;> intro x
  · rw [hred _ x (fun p hp => (henv p hp).1)]
    simp +decide [varsToSet, List.mem_append, mem_ite_singleton, mem_ite_pair,
      List.mem_filterMap, ambientEnvKeysToPropagate]
  · rw [hred _ x (fun p hp => (henv p hp).2.1)]
    simp +decide [varsToSet, List.mem_append, mem_ite_singleton, mem_ite_pair,
      List.mem_filterMap, ambientEnvKeysToPropagate]
  · rw [hred _ x (fun p hp => (henv p hp).2.2.1)]
    simp +decide [varsToSet, List.mem_append, mem_ite_singleton, mem_ite_pair,
      List.mem_filterMap, ambientEnvKeysToPropagate]
  · rw [hred _ x (fun p hp => (henv p hp).2.2.2.1)]
    simp +decide [varsToSet, List.mem_append, mem_ite_singleton, mem_ite_pair,
      List.mem_filterMap, ambientEnvKeysToPropagate]
  · rw [hred _ x (fun p hp => (henv p hp).2.2.2.2.1)]
    simp +decide [varsToSet, List.mem_append, mem_ite_singleton, mem_ite_pair,
      List.mem_filterMap, ambientEnvKeysToPropagate]
  · rw [hred _ x (fun p hp => (henv p hp).2.2.2.2.2)]
    simp +decide [varsToSet, List.mem_append, mem_ite_singleton, mem_ite_pair,
      List.mem_filterMap, ambientEnvKeysToPropagate]

/-- C3 witness: with a 7-token output budget and a 2-second timeout, the
budget, whole-second timeout and deadline variables are all present with
the expected values, while the unset retry variable is absent. -/
theorem claim3_witness :
    ("CTX_OUTPUT_TOKEN_BUDGET", "7")
        ∈ getPluginEnv { outputTokenBudget := 7, pluginTimeout := 2000000000 } "s"
            ambientEnvKeysToPropagate [] (fun _ => none) 0
      ∧ ("CTX_TIMEOUT_SECONDS", "2")
          ∈ getPluginEnv { outputTokenBudget := 7, pluginTimeout := 2000000000 } "s"
              ambientEnvKeysToPropagate [] (fun _ => none) 0
      ∧ ("CTX_DEADLINE_TIMESTAMP", "2")
          ∈ getPluginEnv { outputTokenBudget := 7, pluginTimeout := 2000000000 } "s"
              ambientEnvKeysToPropagate [] (fun _ => none) 0
      ∧ ("CTX_RETRY_MAX", "0")
          ∉ getPluginEnv { outputTokenBudget := 7, pluginTimeout := 2000000000 } "s"
              ambientEnvKeysToPropagate [] (fun _ => none) 0 := by
  have h := claim3_budget_vars { outputTokenBudget := 7, pluginTimeout := 2000000000 } "s" []
    (fun _ => none) 0 (by decide)
  exact ⟨(h.1 "7").mpr (by decide), (h.2.2.2.1 "2").mpr (by decide),
    (h.2.2.2.2.1 "2").mpr (by decide),
    fun hm => absurd ((h.2.2.2.2.2 "0").mp hm).1 (by decide)⟩

/-- The XML document always ends in the closing bracket of the root end
tag, so the trailing-newline branch of `formatOutput` always appends. -/
theorem xmlHeader_marshal_getLast (r : XMLResults) :
    (xmlHeader ++ xmlMarshal r).getLast? = some '>' := by
  rw [List.getLast?_append]
  unfold xmlMarshal
  rw [List.getLast?_append]
  rw [show (("</ctx_results>".data).getLast? = some '>') from by decide]
  rfl

/-- The indented XML document likewise ends in the closing bracket of the
root end tag. -/
theorem xmlHeader_marshalInd_getLast (ind : Nat) (r : XMLResults) :
    (xmlHeader ++ xmlMarshalInd ind r).getLast? = some '>' := by
  rw [List.getLast?_append]
  unfold xmlMarshalInd
  rw [List.getLast?_append, List.getLast?_append, List.getLast?_append,
    List.getLast?_append, List.getLast?_append]
  rw [show (("</ctx_results>".data).getLast? = some '>') from by decide]
  rfl

/-- C2 counterexample: with an empty parent environment the run mints a
fresh session identifier (`ctx_7` at clock 7) and sets it in every child's
environment, but the XML root's `session_id` attribute — read back from the
orchestrator's own unmodified environment with `os.Getenv` — is empty, so
the attribute does not equal the session identifier used for the run. -/
theorem claim2_counterexample :
    formatOutput [("a".data, ⟨"a".data, "1".data, Json.null⟩)]
        { outputFormat := "xml", summary := true } []
      = Except.ok ("<?xml version=\"1.0\" encoding=\"UTF-8\"?>\n<ctx_results session_id=\"\"><plugin name=\"a\" version=\"1\"><data>null</data></plugin></ctx_results>\n").data
      ∧ getSessionID [] 7 = "ctx_7"
      ∧ (ctxSessionEnvKey, "ctx_7") ∈ getPluginEnv { outputFormat := "xml", summary := true }
          "ctx_7" ambientEnvKeysToPropagate [] (fun _ => none) 7
      ∧ (xmlRoot [("a".data, ⟨"a".data, "1".data, Json.null⟩)] []).sessionID ≠ "ctx_7" := by
  exact ⟨by rfl, by decide, by decide, by decide⟩

/-- C2 (amended): for every XML request the output is the XML declaration,
the marshalled root — compact when `--summary` or a non-positive indent is
configured, `xml.MarshalIndent`'s layout otherwise — and a trailing
newline; in both layouts the root's `session_id` attribute equals the
value of `CTX_SESSION` in the orchestrator's own parent environment (so it
equals the run's session identifier only when that identifier was
propagated rather than freshly minted); one child element per aggregate
entry carries the envelope's name, version and its data re-serialized as
compact JSON text; and the run's session identifier is set as
`CTX_SESSION` in every child environment. -/
theorem claim2_xml_output (results : List (List Char × PluginData)) (cfg : config)
    (env : Env) (hfmt : cfg.outputFormat = "xml") :
    (cfg.summary = true ∨ cfg.indent ≤ 0 →
        formatOutput results cfg env
          = Except.ok ((xmlHeader ++ xmlMarshal (xmlRoot results env)) ++ ['\n']))
      ∧ (cfg.summary = false → 0 < cfg.indent →
          formatOutput results cfg env
            = Except.ok ((xmlHeader
                ++ xmlMarshalInd cfg.indent.toNat (xmlRoot results env)) ++ ['\n']))
      ∧ (xmlRoot results env).sessionID = getenv env ctxSessionEnvKey
      ∧ (xmlRoot results env).plugins
          = results.map (fun p => XMLPlugin.mk p.2.name p.2.version (serJson p.2.data))
      ∧ (getenv env ctxSessionEnvKey ≠ "" →
          ∀ now, getSessionID env now = (xmlRoot results env).sessionID)
      ∧ (∀ absf now, (ctxSessionEnvKey, getSessionID env now)
          ∈ getPluginEnv cfg (getSessionID env now) ambientEnvKeysToPropagate env absf now) := by
  refine ⟨?_, ?_, rfl, rfl, ?_, ?_⟩
  · intro hc
    have hcb : (cfg.summary || decide (cfg.indent ≤ 0)) = true := by
      rcases hc with h | h
      · simp [h]
      · simp [h]
    unfold formatOutput
    dsimp only
    rw [hfmt, show goToLower "xml" = "xml" from by decide]
    rw [if_neg (by decide : ¬ ("xml" : String) = "json"), if_pos rfl, if_pos hcb]
    rw [if_pos ⟨by simp [xmlHeader], by rw [xmlHeader_marshal_getLast]; decide⟩]
  · intro hs hi
    have hcb : ¬ ((cfg.summary || decide (cfg.indent ≤ 0)) = true) := by
      rw [hs]
      simp
      omega
    unfold formatOutput
    dsimp only
    rw [hfmt, show goToLower "xml" = "xml" from by decide]
    rw [if_neg (by decide : ¬ ("xml" : String) = "json"), if_pos rfl, if_neg hcb]
    rw [if_pos ⟨by simp [xmlHeader], by rw [xmlHeader_marshalInd_getLast]; decide⟩]
  · intro hne now
    simp [getSessionID, hne, xmlRoot]
  · intro absf now
    exact List.mem_append.mpr (Or.inr (by simp [varsToSet]))

/-- C2 witness: with a propagated `CTX_SESSION` of `sess`, both the compact
and the two-space-indented XML outputs are produced as stated, and the XML
root attribute, the run's session identifier and the child environment all
agree at a concrete input. -/
theorem claim2_witness :
    formatOutput [("a".data, ⟨"a".data, "1".data, Json.null⟩)]
        { outputFormat := "xml", summary := true } [("CTX_SESSION", "sess")]
        = Except.ok ((xmlHeader
            ++ xmlMarshal (xmlRoot [("a".data, ⟨"a".data, "1".data, Json.null⟩)]
                [("CTX_SESSION", "sess")])) ++ ['\n'])
      ∧ formatOutput [("a".data, ⟨"a".data, "1".data, Json.null⟩)]
          { outputFormat := "xml" } [("CTX_SESSION", "sess")]
          = Except.ok ((xmlHeader
              ++ xmlMarshalInd 2 (xmlRoot [("a".data, ⟨"a".data, "1".data, Json.null⟩)]
                  [("CTX_SESSION", "sess")])) ++ ['\n'])
      ∧ (xmlRoot [("a".data, ⟨"a".data, "1".data, Json.null⟩)]
          [("CTX_SESSION", "sess")]).sessionID = "sess"
      ∧ getSessionID [("CTX_SESSION", "sess")] 7
          = (xmlRoot [("a".data, ⟨"a".data, "1".data, Json.null⟩)]
              [("CTX_SESSION", "sess")]).sessionID
      ∧ (ctxSessionEnvKey, getSessionID [("CTX_SESSION", "sess")] 7)
          ∈ getPluginEnv { outputFormat := "xml", summary := true }
              (getSessionID [("CTX_SESSION", "sess")] 7) ambientEnvKeysToPropagate
              [("CTX_SESSION", "sess")] (fun _ => none) 7 := by
  have h := claim2_xml_output [("a".data, ⟨"a".data, "1".data, Json.null⟩)]
    { outputFormat := "xml", summary := true } [("CTX_SESSION", "sess")] rfl
  have hind := claim2_xml_output [("a".data, ⟨"a".data, "1".data, Json.null⟩)]
    { outputFormat := "xml" } [("CTX_SESSION", "sess")] rfl
  exact ⟨h.1 (Or.inl rfl), hind.2.1 rfl (by decide), h.2.2.1.trans (by decide),
    h.2.2.2.2.1 (by decide) 7, h.2.2.2.2.2 (fun _ => none) 7⟩

/-- The serialized aggregate object always ends in a closing brace. -/
theorem serJson_obj_getLast (fields : List (List Char × Json)) :
    (serJson (Json.obj fields)).getLast? = some rbrace := by
  cases fields with
  | nil => rfl
  | cons m ms =>
    rw [show serJson (Json.obj (m :: ms))
        = [lbrace] ++ (serMember m ++ (serMembersTail ms ++ [rbrace])) from by
      simp [serJson]]
    rw [List.getLast?_append, List.getLast?_append, List.getLast?_append]
    rfl

/-- C8: in compact JSON mode, `formatOutput` emits exactly the serialized
aggregate object followed by a newline, and parsing those bytes back with
the JSON unmarshaller recovers the aggregate's value tree exactly — for
every aggregate, hence for strings, numbers, booleans, null and nested
objects and arrays of arbitrary depth. -/
theorem claim8_json_roundtrip (results : List (List Char × PluginData)) (cfg : config)
    (env : Env) (hfmt : cfg.outputFormat = "json")
    (hc : cfg.summary = true ∨ cfg.indent ≤ 0) :
    formatOutput results cfg env
        = Except.ok (serJson (Json.obj (outputDataOf results)) ++ ['\n'])
      ∧ jsonUnmarshal (serJson (Json.obj (outputDataOf results)) ++ ['\n'])
          = some (Json.obj (outputDataOf results)) := by
  have hcb : (cfg.summary || decide (cfg.indent ≤ 0)) = true := by
    rcases hc with h | h
    · simp [h]
    · simp [h]
  have hne : serJson (Json.obj (outputDataOf results)) ≠ [] := by
    intro h
    have hl := serJson_obj_getLast (outputDataOf results)
    rw [h] at hl
    exact Option.noConfusion hl
  constructor
  · unfold formatOutput
    dsimp only
    rw [hfmt, show goToLower "json" = "json" from by decide]
    rw [if_pos rfl, if_pos hcb]
    rw [if_pos ⟨hne, by rw [serJson_obj_getLast]; decide⟩]
  · exact jsonUnmarshal_ser_append _ ['\n'] (by decide) (by decide)

/-- C8 witness: a concrete aggregate with a nested object survives the
serialize-then-parse round trip through the compact JSON output. -/
theorem claim8_witness :
    formatOutput
        [("alpha".data, ⟨"alpha".data, "1".data, Json.obj [("k".data, Json.num 5)]⟩)]
        { outputFormat := "json", summary := true } []
        = Except.ok (serJson (Json.obj (outputDataOf
            [("alpha".data, ⟨"alpha".data, "1".data, Json.obj [("k".data, Json.num 5)]⟩)]))
            ++ ['\n'])
      ∧ jsonUnmarshal (serJson (Json.obj (outputDataOf
            [("alpha".data, ⟨"alpha".data, "1".data, Json.obj [("k".data, Json.num 5)]⟩)]))
            ++ ['\n'])
          = some (Json.obj (outputDataOf
            [("alpha".data, ⟨"alpha".data, "1".data, Json.obj [("k".data, Json.num 5)]⟩)])) :=
  claim8_json_roundtrip
    [("alpha".data, ⟨"alpha".data, "1".data, Json.obj [("k".data, Json.num 5)]⟩)]
    { outputFormat := "json", summary := true } [] rfl (Or.inl rfl)

end Ctx
